import Mathlib

/-!
Verification of the ollama-agent query pipeline against its specification.

The development shallowly embeds the core of `ollama_agent/core/agent.py` and
`ollama_agent/core/ai_model_lib.py`:

* `handle_json_fields` (the free-text tool-call extractor) including the three
  regex scans, the fenced-code-block scan, trailing-comma repair, a JSON parser
  standing in for `json.loads`, and the regex fallback scrape;
* the conversation-memory truncations of `AIModel.chat` and `AIModel.load_memory`;
* `handle_tool_call` (dispatch guard and result normalization);
* `handle_user_query` (the per-query orchestrator) with external effects
  (capability probe, model chat, tool channel, second-pass formatter) passed
  in as oracle values / functions;
* `function_call_avaliablity` (the capability probe).

Strings are modelled as `List Char`.  Python regex searches are modelled by
scanning functions whose behaviour coincides with the specific patterns used
in the source (the patterns are simple enough that leftmost search plus a
local matcher characterises them exactly; the characterisations are recorded
in the doc comments of the matchers).
-/

namespace OllamaAgent

abbrev Chars := List Char

/-- Left and right curly brace characters (written via code points). -/
def lbrace : Char := Char.ofNat 123

def rbrace : Char := Char.ofNat 125

/-- Backtick character. -/
def btick : Char := Char.ofNat 96

/-- Double-quote character. -/
def dquote : Char := '"'

/-- Python `\s` for the ASCII range: space, tab, newline, carriage return,
vertical tab, form feed. -/
def isPySpace (c : Char) : Bool :=
  c = ' ' || c = '\t' || c = '\n' || c = '\r' || c = Char.ofNat 11 || c = Char.ofNat 12

/-- Does `s` start with the pattern `p`? -/
def startsWith : Chars → Chars → Bool
  | [], _ => true
  | _ :: _, [] => false
  | p :: ps, c :: cs => p == c && startsWith ps cs

/-- Does the pattern `p` occur as a contiguous substring of `s`?
Models Python `p in s` and the fixed-literal part of regex search. -/
def hasSub (p : Chars) : Chars → Bool
  | [] => startsWith p []
  | s@(_ :: rest) => startsWith p s || hasSub p rest

/-- Python `str.strip()` restricted to ASCII whitespace. -/
def pyStrip (s : Chars) : Chars :=
  ((s.dropWhile isPySpace).reverse.dropWhile isPySpace).reverse

def isBrace (c : Char) : Bool := c = lbrace || c = rbrace

/-- Split `s` into its longest brace-free prefix and the rest
(the rest is empty or starts with a brace). -/
def braceSplit : Chars → Chars × Chars
  | [] => ([], [])
  | c :: cs =>
    if isBrace c then ([], c :: cs)
    else
      let (r, rest) := braceSplit cs
      (c :: r, rest)

/-- Split `s` at the first occurrence of character `k`:
returns the part before `k` and the part after it. -/
def splitAtFirst (k : Char) : Chars → Option (Chars × Chars)
  | [] => none
  | c :: cs =>
    if c = k then some ([], cs)
    else
      match splitAtFirst k cs with
      | some (r, rest) => some (c :: r, rest)
      | none => none

/-- The literal `"tool_name"` (with the surrounding double quotes), as it
appears inside the three scan patterns of `handle_json_fields`. -/
def qToolName : Chars := dquote :: ('t' :: 'o' :: 'o' :: 'l' :: '_' :: 'n' :: 'a' :: 'm' :: 'e' :: []) ++ [dquote]

/-- Matcher for the strict pattern `\{[^{}]*"tool_name"[^{}]*\}` at the start
of `s`.  A match at a position exists exactly when the position holds `{`,
the first brace after it is `}`, and `"tool_name"` occurs in between (both
character classes exclude braces, so the closing brace of any match is forced
to be the first brace after the opening one). -/
def strictAt (s : Chars) : Option Chars :=
  match s with
  | [] => none
  | c :: cs =>
    if c = lbrace then
      match (braceSplit cs).2 with
      | d :: _ =>
        if d = rbrace && hasSub qToolName (braceSplit cs).1 then
          some (lbrace :: (braceSplit cs).1 ++ [rbrace])
        else none
      | [] => none
    else none

/-- Matcher for the flexible pattern `\{[^}]*"tool_name"[^}]*\}` at the start
of `s`.  The character class excludes only `}`, so the closing brace of any
match is the first `}` after the opening `{`. -/
def flexAt (s : Chars) : Option Chars :=
  match s with
  | [] => none
  | c :: cs =>
    if c = lbrace then
      match splitAtFirst rbrace cs with
      | some pr =>
        if hasSub qToolName pr.1 then some (lbrace :: pr.1 ++ [rbrace]) else none
      | none => none
    else none

/-- Leftmost search: try the matcher at every position of `s` from the left,
as Python `re.search` does. -/
def searchO (f : Chars → Option Chars) : Chars → Option Chars
  | [] => f []
  | s@(_ :: rest) =>
    match f s with
    | some r => some r
    | none => searchO f rest

/-- Closing condition of the lazy body of the fence pattern: the remaining
input starts with `` \n?``` `` (the optional-newline-then-triple-backtick that
terminates `(.*?)\n?` + three backticks). -/
def fenceClose (s : Chars) : Bool :=
  startsWith [btick, btick, btick] s || startsWith ('\n' :: btick :: btick :: btick :: []) s

/-- The lazy body `(.*?)`: shortest prefix whose remainder satisfies the
closing condition; `none` when no closing fence exists. -/
def lazyBody : Chars → Option Chars
  | [] => if fenceClose [] then some [] else none
  | s@(c :: cs) =>
    if fenceClose s then some []
    else
      match lazyBody cs with
      | some r => some (c :: r)
      | none => none

def jsonWord : Chars := 'j' :: 's' :: 'o' :: 'n' :: []

/-- Matcher for the fence pattern ```` ```(?:json)?\s*\n?(.*?)\n?``` ```` (with
DOTALL) at the start of `s`, returning group 1.  `(?:json)?` is consumed when
present (consuming it never loses a match), `\s*` is greedy (greedily consumed
whitespace can always be re-absorbed by the DOTALL lazy body, so maximal
munch never loses a match), after which `\n?` necessarily matches empty. -/
def fenceAt (s : Chars) : Option Chars :=
  if startsWith [btick, btick, btick] s then
    let r1 := s.drop 3
    let r2 := if startsWith jsonWord r1 then r1.drop 4 else r1
    let r3 := r2.dropWhile isPySpace
    lazyBody r3
  else none

/-- One pass of Python `re.sub(r',\s*' + close, close, s)`: scanning from the
left, every non-overlapping occurrence of a comma followed by whitespace and
then the character `close` is replaced by `close` alone.  The `pend` state
carries the whitespace (reversed) seen since a pending comma. -/
def subGo (close : Char) : Chars → Option Chars → Chars
  | [], none => []
  | [], some buf => ',' :: buf.reverse
  | c :: cs, none =>
    if c = ',' then subGo close cs (some []) else c :: subGo close cs none
  | c :: cs, some buf =>
    if c = close then close :: subGo close cs none
    else if isPySpace c then subGo close cs (some (c :: buf))
    else if c = ',' then (',' :: buf.reverse) ++ subGo close cs (some [])
    else (',' :: buf.reverse) ++ (c :: subGo close cs none)

/-- The two trailing-comma repairs of `handle_json_fields`, in source order:
first commas before `}`, then commas before `]`. -/
def stripTrailingCommas (s : Chars) : Chars :=
  subGo ']' (subGo rbrace s none) none

mutual

/-- JSON values, the model of what `json.loads` produces.  Objects are kept as
ordered key/value sequences (Python dict insertion order); duplicate keys are
resolved last-wins by `objGet`.  Numbers are modelled as integers (the inputs
relevant to the claims carry only strings and objects). -/
inductive Json where
  | null : Json
  | bool (b : Bool) : Json
  | num (n : Int) : Json
  | str (s : Chars) : Json
  | arr (xs : JsonItems) : Json
  | obj (kvs : JsonFields) : Json

/-- Item sequence of a JSON array. -/
inductive JsonItems where
  | nil : JsonItems
  | cons (hd : Json) (tl : JsonItems) : JsonItems

/-- Key/value sequence of a JSON object. -/
inductive JsonFields where
  | nil : JsonFields
  | cons (key : Chars) (val : Json) (tl : JsonFields) : JsonFields

end

deriving instance DecidableEq for Json

/-- Python `dict.get`: with duplicate keys the parser's later binding wins. -/
def objGet (key : Chars) : JsonFields → Option Json
  | .nil => none
  | .cons k v rest =>
    match objGet key rest with
    | some r => some r
    | none => if k = key then some v else none

/-- Decode one JSON string escape character (`\uXXXX` is not needed by any
input in this development and is treated as a parse failure). -/
def unescape (c : Char) : Option Char :=
  if c = dquote then some dquote
  else if c = '\\' then some '\\'
  else if c = '/' then some '/'
  else if c = 'b' then some (Char.ofNat 8)
  else if c = 'f' then some (Char.ofNat 12)
  else if c = 'n' then some '\n'
  else if c = 'r' then some '\r'
  else if c = 't' then some '\t'
  else none

/-- Worker for the JSON string body parser; the flag records a pending
backslash escape. -/
def parseStrGo : Bool → Chars → Option (Chars × Chars)
  | _, [] => none
  | true, e :: cs =>
    match unescape e with
    | some ch =>
      match parseStrGo false cs with
      | some (r, rest) => some (ch :: r, rest)
      | none => none
    | none => none
  | false, c :: cs =>
    if c = dquote then some ([], cs)
    else if c = '\\' then parseStrGo true cs
    else if c.toNat < 32 then none
    else
      match parseStrGo false cs with
      | some (r, rest) => some (c :: r, rest)
      | none => none

/-- Parse the body of a JSON string (the opening quote already consumed):
returns the decoded content and the input after the closing quote.  Raw
control characters are rejected, as `json.loads` does. -/
def parseStr (s : Chars) : Option (Chars × Chars) := parseStrGo false s

def skipWs (s : Chars) : Chars := s.dropWhile isPySpace

/-- Parse a run of decimal digits. -/
def parseDigits : Chars → Nat → Option (Nat × Chars)
  | [], acc => some (acc, [])
  | c :: cs, acc =>
    if c.isDigit then
      match parseDigits cs (acc * 10 + (c.toNat - 48)) with
      | some r => some r
      | none => none
    else some (acc, c :: cs)

/-- Parse an integer JSON number (optionally negative); a following `.`, `e`
or `E` would make it a float, which this model rejects (no input of the
claims contains one). -/
def parseNum (s : Chars) : Option (Json × Chars) :=
  let (neg, s1) :=
    match s with
    | c :: cs => if c = '-' then (true, cs) else (false, s)
    | [] => (false, s)
  match s1 with
  | c :: _ =>
    if c.isDigit then
      match parseDigits s1 0 with
      | some (n, rest) =>
        match rest with
        | d :: _ => if d = '.' || d = 'e' || d = 'E' then none
                    else some (.num (if neg then -(n : Int) else (n : Int)), rest)
        | [] => some (.num (if neg then -(n : Int) else (n : Int)), rest)
      | none => none
    else none
  | [] => none

mutual

/-- Parse one JSON value; `fuel` bounds the recursion (one unit is consumed
per nested parser call, so `length s + 1` always suffices). -/
def parseVal : Nat → Chars → Option (Json × Chars)
  | 0, _ => none
  | fuel + 1, s =>
    match skipWs s with
    | [] => none
    | c :: cs =>
      if c = dquote then
        match parseStr cs with
        | some (r, rest) => some (.str r, rest)
        | none => none
      else if c = lbrace then
        match skipWs cs with
        | d :: ds => if d = rbrace then some (.obj .nil, ds)
                     else
                       match parseMembers fuel cs with
                       | some (kvs, rest) => some (.obj kvs, rest)
                       | none => none
        | [] => none
      else if c = '[' then
        match skipWs cs with
        | d :: ds => if d = ']' then some (.arr .nil, ds)
                     else
                       match parseItems fuel cs with
                       | some (xs, rest) => some (.arr xs, rest)
                       | none => none
        | [] => none
      else if c = 't' then
        if startsWith ('r' :: 'u' :: 'e' :: []) cs then some (.bool true, cs.drop 3) else none
      else if c = 'f' then
        if startsWith ('a' :: 'l' :: 's' :: 'e' :: []) cs then some (.bool false, cs.drop 4) else none
      else if c = 'n' then
        if startsWith ('u' :: 'l' :: 'l' :: []) cs then some (.null, cs.drop 3) else none
      else if c = '-' || c.isDigit then parseNum (c :: cs)
      else none

/-- Parse the non-empty member list of a JSON object, up to and including the
closing brace. -/
def parseMembers : Nat → Chars → Option (JsonFields × Chars)
  | 0, _ => none
  | fuel + 1, s =>
    match skipWs s with
    | [] => none
    | c :: cs =>
      if c = dquote then
        match parseStr cs with
        | some (key, r1) =>
          match skipWs r1 with
          | d :: r2 =>
            if d = ':' then
              match parseVal fuel r2 with
              | some (v, r3) =>
                match skipWs r3 with
                | e :: r4 =>
                  if e = ',' then
                    match parseMembers fuel r4 with
                    | some (kvs, rest) => some (.cons key v kvs, rest)
                    | none => none
                  else if e = rbrace then some (.cons key v .nil, r4)
                  else none
                | [] => none
              | none => none
            else none
          | [] => none
        | none => none
      else none

/-- Parse the non-empty item list of a JSON array, up to and including the
closing bracket. -/
def parseItems : Nat → Chars → Option (JsonItems × Chars)
  | 0, _ => none
  | fuel + 1, s =>
    match parseVal fuel s with
    | some (v, r1) =>
      match skipWs r1 with
      | e :: r2 =>
        if e = ',' then
          match parseItems fuel r2 with
          | some (xs, rest) => some (.cons v xs, rest)
          | none => none
        else if e = ']' then some (.cons v .nil, r2)
        else none
      | [] => none
    | none => none

end

/-- Model of `json.loads`: parse one value and require only whitespace after
it. -/
def pyJsonLoads (s : Chars) : Option Json :=
  match parseVal (s.length + 1) s with
  | some (v, rest) => if skipWs rest = [] then some v else none
  | none => none

def toolNameKey : Chars := 't' :: 'o' :: 'o' :: 'l' :: '_' :: 'n' :: 'a' :: 'm' :: 'e' :: []

def argsKey : Chars := 'a' :: 'r' :: 'g' :: 's' :: []

def queryKey : Chars := 'q' :: 'u' :: 'e' :: 'r' :: 'y' :: []

/-- Matcher at one position for the fallback pattern
`"KEY"\s*:\s*"([^"]+)"` (used with `KEY` = `tool_name` and `KEY` = `query`):
the literal quoted key, optional whitespace around a colon, then a non-empty
run of non-quote characters between quotes; returns group 1. -/
def scrapeAt (key : Chars) (s : Chars) : Option Chars :=
  if startsWith (dquote :: key ++ [dquote]) s then
    let r1 := (s.drop (key.length + 2)).dropWhile isPySpace
    match r1 with
    | c :: r2 =>
      if c = ':' then
        match r2.dropWhile isPySpace with
        | d :: r3 =>
          if d = dquote then
            match splitAtFirst dquote r3 with
            | some (grp, _) => if grp = [] then none else some grp
            | none => none
          else none
        | [] => none
      else none
    | [] => none
  else none

/-- The regex-only fallback recovery in the `except json.JSONDecodeError`
branch of `handle_json_fields`: scrape `tool_name`, and optionally a `query`
argument, from the whole input text. -/
def fallbackScrape (text : Chars) : Option Json × Json :=
  match searchO (scrapeAt toolNameKey) text with
  | some name =>
    let args :=
      match searchO (scrapeAt queryKey) text with
      | some q => Json.obj (.cons queryKey (.str q) .nil)
      | none => Json.obj .nil
    (some (.str name), args)
  | none => (none, Json.obj .nil)

def fenceMarker : Chars := [btick, btick, btick]

/-- The candidate selection of `handle_json_fields`: strict direct-JSON regex
first, then the fenced code block (group 1), then the flexible legacy regex;
each candidate is `.strip()`-ped as in the source. -/
def jsonCandidate (text : Chars) : Option Chars :=
  match searchO strictAt text with
  | some m => some (pyStrip m)
  | none =>
    match searchO fenceAt text with
    | some body => some (pyStrip body)
    | none =>
      match searchO flexAt text with
      | some m => some (pyStrip m)
      | none => none

/-- Model of `IntelligentAgent.handle_json_fields`.  Returns the `(tool_name, args)`
pair; `Except.error ()` models the uncaught `AttributeError` raised when a
candidate parses to a non-dict (`.get` on a non-dict; only
`json.JSONDecodeError` is caught in the source).  When no candidate is found
(whether or not JSON markers are present) the source returns `(None, {})`. -/
def handle_json_fields (text : Chars) : Except Unit (Option Json × Json) :=
  match jsonCandidate text with
  | none => .ok (none, Json.obj .nil)
  | some cand =>
    let jtext := stripTrailingCommas cand
    match pyJsonLoads jtext with
    | some (Json.obj kvs) =>
      .ok (objGet toolNameKey kvs, (objGet argsKey kvs).getD (Json.obj .nil))
    | some _ => .error ()
    | none => .ok (fallbackScrape text)

/-! ### Conversation memory (`ai_model_lib.py`) -/

/-- One conversation turn: a Python dict `{'role': ..., 'content': ...}`. -/
structure Turn where
  role : Chars
  content : Chars
deriving DecidableEq

def systemRole : Chars := ("system").toList

def userRole : Chars := ("user").toList

def assistantRole : Chars := ("assistant").toList

/-- The truncation inside `AIModel.chat` (lines 104-106):
`[history[0]] + history[-(max_history_length-1):]` when the size exceeds
`max_history_length`.  Python slice semantics are reproduced exactly,
including the degenerate cases `max = 1` (where `history[-0:]` is the whole
list) and `max = 0` (where `history[-(-1):]` is `history[1:]`). -/
def chatTruncate (maxH : Nat) (h : List Turn) : List Turn :=
  if h.length > maxH then
    h.take 1 ++
      (if maxH = 0 then h.drop 1
       else if maxH = 1 then h
       else h.drop (h.length - (maxH - 1)))
  else h

/-- The truncation inside `AIModel.load_memory` (lines 183-184):
`history[-max_history_length:]` when the loaded size exceeds the bound
(`history[-0:]` is the whole list when the bound is `0`). -/
def loadTruncate (maxH : Nat) (h : List Turn) : List Turn :=
  if h.length > maxH then
    (if maxH = 0 then h else h.drop (h.length - maxH))
  else h

/-- Model of `AIModel.chat` lines 66-68: insert a system turn at position 0 iff no
turn carries the system role. -/
def ensureSystem (sys : Chars) (h : List Turn) : List Turn :=
  if h.any (fun t => t.role == systemRole) then h else ⟨systemRole, sys⟩ :: h

/-- Model of `AIModel.chat` lines 95-96: `history[1]['content'] = str(no_of_tokens)`
when more than one turn exists — the content (never the role) of the turn at
index 1 is overwritten with the token count. -/
def setTokenCount (tok : Chars) (h : List Turn) : List Turn :=
  match h with
  | a :: b :: rest => a :: { b with content := tok } :: rest
  | _ => h

/-- The full history transformation of one `AIModel.chat(message)` call on the
pipeline path (`isCallTool = False`): reload (which truncates to the last
`maxH` turns), ensure the system turn, append the user turn, overwrite turn 1
with the token count, append the assistant turn, truncate. -/
def chatHistoryUpdate (maxH : Nat) (sys userMsg assistantMsg tok : Chars)
    (stored : List Turn) : List Turn :=
  let h0 := loadTruncate maxH stored
  let h1 := ensureSystem sys h0
  let h2 := h1 ++ [⟨userRole, userMsg⟩]
  let h3 := setTokenCount tok h2
  let h4 := h3 ++ [⟨assistantRole, assistantMsg⟩]
  chatTruncate maxH h4

/-! ### Capability probe (`AIModel.function_call_avaliablity`) -/

/-- Failure kinds of the synthetic tool-enabled probe request.  The ollama
client raises `ResponseError` whenever the server answers with an error
reply — this includes both the unsupported-feature reply ("model does not
support tools") and unrelated server-side errors such as an unknown model;
transport-level failures (unreachable endpoint, timeout) raise other
exception types. -/
inductive ChatErr where
  | unsupported (msg : Chars) : ChatErr
  | apiError (msg : Chars) : ChatErr
  | transport (msg : Chars) : ChatErr
deriving DecidableEq

/-- Which failures are `ResponseError`s (the only class caught by the
probe's `except` clause). -/
def ChatErr.isResponseError : ChatErr → Bool
  | .unsupported _ => true
  | .apiError _ => true
  | .transport _ => false

/-- Is the failure specifically the unsupported-feature kind? -/
def ChatErr.isUnsupportedKind : ChatErr → Bool
  | .unsupported _ => true
  | _ => false

/-- Model of `AIModel.function_call_avaliablity` (lines 118-145), with the outcome of
the synthetic `client.chat` call passed in: `except ResponseError: return
False`; any other failure propagates; success returns `True`. -/
def function_call_avaliablity (outcome : Except ChatErr Unit) : Except ChatErr Bool :=
  match outcome with
  | .ok _ => .ok true
  | .error e => if e.isResponseError then .ok false else .error e

/-! ### Tool dispatch and result normalization (`handle_tool_call`) -/

/-- A fault raised by an external collaborator (model endpoint, tool channel,
file system), carrying its description `str(e)`. -/
structure Fault where
  msg : Chars
deriving DecidableEq

/-- One element of the MCP result's `content` list, as duck-typed by the
source: `ptype` is the `type` attribute when present, `className` the class
name used by the fallback discrimination, `text`/`uri` the optional attributes
read via `getattr`, and `asStr` the `str()` rendering. -/
structure ContentItem where
  ptype : Option Chars
  className : Chars
  text : Option Chars
  uri : Option Chars
  asStr : Chars
deriving DecidableEq

def imagePlaceholder : Chars := ("[Image content]").toList

def audioPlaceholder : Chars := ("[Audio content]").toList

def resourcePlaceholder (uri : Option Chars) : Chars :=
  ("[Resource: ").toList ++ (uri.getD (("Unknown").toList)) ++ [']']

/-- The per-item rendering of `handle_tool_call` (lines 376-409): branch on
the `type` attribute when present, otherwise on the class name (`TextContent`
exactly, then substring checks for `Image`/`Audio`/`Resource`), with `str()`
as the last resort. -/
def renderItem (it : ContentItem) : Chars :=
  match it.ptype with
  | some t =>
    if t = ("text").toList then it.text.getD it.asStr
    else if t = ("image").toList then imagePlaceholder
    else if t = ("audio").toList then audioPlaceholder
    else if t = ("resource").toList then resourcePlaceholder it.uri
    else it.asStr
  | none =>
    if it.className = ("TextContent").toList then it.text.getD it.asStr
    else if hasSub (("Image").toList) it.className then imagePlaceholder
    else if hasSub (("Audio").toList) it.className then audioPlaceholder
    else if hasSub (("Resource").toList) it.className then resourcePlaceholder it.uri
    else it.asStr

/-- The MCP `call_tool` result: `content` list (empty models both an absent
and a falsy attribute), the `structuredContent` attribute, and the `str()`
rendering of the whole result object. -/
structure ToolCallRes where
  content : List ContentItem
  structured : Option Json
  rawStr : Chars
deriving DecidableEq

/-- Python `'\n'.join`. -/
def joinNl : List Chars → Chars
  | [] => []
  | [x] => x
  | x :: xs => x ++ '\n' :: joinNl xs

/-- Python truthiness of a JSON-shaped value. -/
def pyTruthy : Json → Bool
  | .null => false
  | .bool b => b
  | .num n => n != 0
  | .str s => s != []
  | .arr .nil => false
  | .arr (.cons _ _) => true
  | .obj .nil => false
  | .obj (.cons _ _ _) => true

/-- Python `str()` of a decoded JSON value.  Strings render as themselves
(the only case exercised by the theorems below); containers render as opaque
placeholders. -/
def pyStr : Json → Chars
  | .str s => s
  | .num n => (toString n).toList
  | .bool true => ("True").toList
  | .bool false => ("False").toList
  | .null => ("None").toList
  | .arr _ => ("[...]").toList
  | .obj _ => ("\x7b...\x7d").toList

def noSignalMsg : Chars := ("🚫 No relevant results from tool call.").toList

def invalidToolMsg : Chars := ("Invalid tool name or arguments.").toList

def noTextMsg : Chars := ("No text content found").toList

def resultKey : Chars := ("result").toList

/-- The empty-looking outputs `["[]", "No results", ""]` of the source. -/
def emptyLooking (s : Chars) : Bool :=
  s == ("[]").toList || s == ("No results").toList || s == []

/-- Lines 422-427: `str(result)` unless that too is empty-looking, in which
case the standardized no-signal message. -/
def lastResortStr (r : ToolCallRes) : Chars :=
  if emptyLooking r.rawStr then noSignalMsg else r.rawStr

/-- Result normalization of `handle_tool_call` (lines 371-427), after the
channel call returned (`none` models Python `None`).  Note the fall-through:
when the concatenated content text is empty-looking, control reaches the
`str(result)` last resort (the `elif` on `structuredContent` is skipped
because the `content` branch was taken). -/
def normalizeResult : Option ToolCallRes → Chars
  | none => noSignalMsg
  | some r =>
    if r.content ≠ [] then
      let parts := r.content.map renderItem
      let extracted := if parts = [] then noTextMsg else joinNl parts
      if extracted ≠ [] && !(emptyLooking extracted) then extracted
      else lastResortStr r
    else
      match r.structured with
      | some j =>
        if pyTruthy j then
          match j with
          | Json.obj kvs =>
            match objGet resultKey kvs with
            | some v => pyStr v
            | none => lastResortStr r
          | _ => lastResortStr r
        else lastResortStr r
      | none => lastResortStr r

def pyTruthyOpt : Option Json → Bool
  | none => false
  | some j => pyTruthy j

def Json.isObj : Json → Bool
  | .obj _ => true
  | _ => false

/-- Model of `IntelligentAgent.handle_tool_call` (lines 355-427) with the execution
channel passed in as a function.  The returned `Bool` records whether the
channel was invoked.  The guard (lines 366-367) is Python
`if not tool_name or not isinstance(args, dict)`. -/
def handle_tool_call (toolName : Option Json) (args : Json)
    (channel : Chars → Json → Except Fault (Option ToolCallRes)) :
    Except Fault (Chars × Bool) :=
  if !(pyTruthyOpt toolName) || !(args.isObj) then
    .ok (invalidToolMsg, false)
  else
    match channel (pyStr (toolName.getD .null)) args with
    | .error f => .error f
    | .ok res => .ok (normalizeResult res, true)

/-! ### Orchestrator (`handle_user_query`) -/

/-- The value `chat()` hands back as seen by `handle_user_query`: either a
parsed response dict (content plus native `tool_calls`) or a plain string.
(`AIModel.chat` in fact always returns a string, but `handle_user_query`
branches on the type, and the claims quantify over both shapes.) -/
inductive ModelResp where
  | rdict (content : Chars) (tool_calls : List (Chars × Json)) : ModelResp
  | rstr (s : Chars) : ModelResp
deriving DecidableEq

/-- Observable steps of one query run, used to state which collaborators an
execution invoked: a tool dispatch that reached the channel, and a call of
the second-pass formatter on a dispatch result. -/
inductive AgentEvent where
  | dispatched (name : Chars) (args : Json) : AgentEvent
  | formatted (s : Chars) : AgentEvent
deriving DecidableEq

def errTag : Chars := ("❌ **Error processing query:** ").toList

def toolTag : Chars := ("🔍 **Tool Call Result:**\n\n").toList

def directTag : Chars := ("💭 **Direct Response:**\n\n").toList

def attrErrorMsg : Chars := ("AttributeError").toList

def msgKey : Chars := ("message").toList

def contentKey : Chars := ("content").toList

/-- Lines 126-131 / 192-197: when `chat()` hands back a string, try
`json.loads` on it; on success read `.get('message', {}).get('content',
response)`; a `JSONDecodeError` leaves the string as the content; `.get` on a
non-dict raises an uncaught `AttributeError`. -/
def strContentOf (s : Chars) : Except Fault Chars :=
  match pyJsonLoads s with
  | some (Json.obj kvs) =>
    match objGet msgKey kvs with
    | some (Json.obj mk) =>
      .ok (match objGet contentKey mk with
           | some v => pyStr v
           | none => s)
    | some _ => .error ⟨attrErrorMsg⟩
    | none => .ok s
  | some _ => .error ⟨attrErrorMsg⟩
  | none => .ok s

/-- Model of `small_model_handle_tool_response` (lines 218-254): a fixed reply when no
model is configured, otherwise one memoryless `generate_response` call on the
tool response. -/
def small_model_handle_tool_response (model : Chars)
    (gen : Chars → Except Fault Chars) (tool_response : Chars) :
    Except Fault Chars :=
  if model = [] then .ok (("No model specified for processing tool response.").toList)
  else gen tool_response

/-- The native tool-call loop (lines 118-120): dispatch each call in order,
keeping only the last result; a dispatch that reaches the channel is recorded
as an event. -/
def nativeLoop (channel : Chars → Json → Except Fault (Option ToolCallRes)) :
    List (Chars × Json) → Chars → List AgentEvent → Except Fault (Chars × List AgentEvent)
  | [], acc, evs => .ok (acc, evs)
  | (n, a) :: rest, _, evs =>
    match handle_tool_call (some (.str n)) a channel with
    | .error f => .error f
    | .ok (r, inv) =>
      nativeLoop channel rest r (evs ++ (if inv then [.dispatched n a] else []))

/-- Lines 133-148 / 199-213: run the extractor on the content; on a tool name
dispatch the tool, then unconditionally hand the dispatch result to the
second-pass formatter and tag the reply "Tool Call Result"; otherwise return
the content tagged "Direct Response". -/
def extractAndDispatch (channel : Chars → Json → Except Fault (Option ToolCallRes))
    (fmt : Chars → Except Fault Chars) (content : Chars) :
    Except Fault (Chars × List AgentEvent) :=
  match handle_json_fields content with
  | .error _ => .error ⟨attrErrorMsg⟩
  | .ok (toolName?, args) =>
    match toolName? with
    | some tn =>
      match handle_tool_call (some tn) args channel with
      | .error f => .error f
      | .ok (r, inv) =>
        match fmt r with
        | .error f => .error f
        | .ok fr =>
          .ok (toolTag ++ fr, (if inv then [.dispatched (pyStr tn) args] else []) ++ [.formatted r])
    | none => .ok (directTag ++ content, [])

/-- The `try` block of `handle_user_query` (lines 71-214), with the four
external collaborators passed in: the capability probe outcome, the `chat()`
outcome, the tool channel, and the second-pass formatter.  When the probe
reports native tool support and the response is a dict with non-empty
`tool_calls`, the calls are dispatched and the last result returned without
the formatter; every other path goes through text extraction. -/
def queryBody (probe : Except Fault Bool) (resp : Except Fault ModelResp)
    (channel : Chars → Json → Except Fault (Option ToolCallRes))
    (fmt : Chars → Except Fault Chars) : Except Fault (Chars × List AgentEvent) :=
  match probe with
  | .error f => .error f
  | .ok canNative =>
    match resp with
    | .error f => .error f
    | .ok r =>
      if canNative then
        match r with
        | .rdict content calls =>
          match calls with
          | _ :: _ =>
            match nativeLoop channel calls [] [] with
            | .error f => .error f
            | .ok (res, evs) => .ok (toolTag ++ res, evs)
          | [] => extractAndDispatch channel fmt content
        | .rstr s =>
          match strContentOf s with
          | .error f => .error f
          | .ok content => extractAndDispatch channel fmt content
      else
        match r with
        | .rdict content _ => extractAndDispatch channel fmt content
        | .rstr s =>
          match strContentOf s with
          | .error f => .error f
          | .ok content => extractAndDispatch channel fmt content

/-- Model of `IntelligentAgent.handle_user_query`: the `try` block wrapped in `except
Exception as e: return f"❌ **Error processing query:** {str(e)}"`.  (The
event trace records completed runs; on a fault only the message is
returned.) -/
def handle_user_query (probe : Except Fault Bool) (resp : Except Fault ModelResp)
    (channel : Chars → Json → Except Fault (Option ToolCallRes))
    (fmt : Chars → Except Fault Chars) : Chars × List AgentEvent :=
  match queryBody probe resp channel fmt with
  | .ok out => out
  | .error f => (errTag ++ f.msg, [])

/-- The response-content slice of `AIModel.chat` relevant to fault flow: the
`client.chat` transport call sits outside the internal `try` (its faults
propagate to the caller), while response processing and the memory persist
(`json.dump`) sit inside it — any fault there is swallowed and the fixed
string "Error: Failed to get response from model" is returned as an ordinary
response. -/
def chatFailMsg : Chars := ("Error: Failed to get response from model").toList

structure RawResp where
  content : Chars
deriving DecidableEq

def chatStep (transport : Except Fault RawResp) (persist : Except Fault Unit) :
    Except Fault Chars :=
  match transport with
  | .error f => .error f
  | .ok raw =>
    match persist with
    | .error _ => .ok chatFailMsg
    | .ok _ => .ok raw.content

/-! ### Rendering of the free-text wire shape (for the round-trip claim) -/

/-- Quote a string. -/
def qu (s : Chars) : Chars := dquote :: s ++ [dquote]

/-- Render a flat string-valued arguments mapping as a JSON object. -/
def renderArgs : List (Chars × Chars) → Chars
  | [] => [lbrace, rbrace]
  | (k, v) :: rest =>
    lbrace :: (qu k ++ ':' :: ' ' :: qu v) ++
      (rest.foldr (fun (p : Chars × Chars) acc =>
        ',' :: ' ' :: (qu p.1 ++ ':' :: ' ' :: qu p.2) ++ acc) []) ++ [rbrace]

/-- Render a tool invocation in the documented wire shape
`{"tool_name": NAME, "args": {...}}`. -/
def renderInvocation (name : Chars) (args : List (Chars × Chars)) : Chars :=
  lbrace :: (qu toolNameKey ++ ':' :: ' ' :: qu name) ++
    (',' :: ' ' :: qu argsKey ++ ':' :: ' ' :: renderArgs args) ++ [rbrace]

/-! ### Concrete inputs used by claim theorems and witnesses -/

/-- The trailing-comma input of the spec's testable property. -/
def c9Input : Chars :=
  ("\x7b\"tool_name\":\"google_search\",\"args\":\x7b\"query\":\"AI news\"\x7d,\x7d").toList

/-- A channel that always answers with no result (Python `None`). -/
def noneChannel : Chars → Json → Except Fault (Option ToolCallRes) :=
  fun _ _ => .ok none

/-- A stored history of five turns headed by a system turn. -/
def exHistory : List Turn :=
  [⟨systemRole, ("be helpful").toList⟩,
   ⟨userRole, ("a").toList⟩, ⟨assistantRole, ("b").toList⟩,
   ⟨userRole, ("c").toList⟩, ⟨assistantRole, ("d").toList⟩]

/-! ## C9 — trailing-comma repair and regex recovery -/

/-- C9: running the extractor on
`{"tool_name":"google_search","args":{"query":"AI news"},}` recovers the
invocation `google_search` with arguments `{"query": "AI news"}` (the
flexible scan yields a brace-unbalanced candidate, the trailing-comma repair
leaves it unparsable, and the narrow regex recovery of `tool_name` and
`query` succeeds). -/
theorem c9_trailing_comma_repair :
    handle_json_fields c9Input =
      .ok (some (.str (("google_search").toList)),
           Json.obj (.cons queryKey (.str (("AI news").toList)) .nil)) := by rfl

/-! ## C4 — capability probe failure discrimination -/

/-- C4 counterexample: a `ResponseError` that is not the unsupported-feature
kind (an unknown-model reply) also makes the probe return `False` instead of
propagating, so "returns false only for the unsupported-feature kind" fails
on the code. -/
theorem c4_probe_false_on_other_response_error :
    function_call_avaliablity (.error (.apiError (("model not found").toList))) = .ok false ∧
    ChatErr.isUnsupportedKind (.apiError (("model not found").toList)) = false :=
  ⟨rfl, rfl⟩

/-- C4 amended: the probe returns `False` exactly when the synthetic request
fails with a `ResponseError` of any kind (unsupported feature included); any
non-`ResponseError` failure propagates, and success yields `True`. -/
theorem c4_probe_false_iff_response_error (e : ChatErr) :
    function_call_avaliablity (.error e) =
      (if e.isResponseError then .ok false else .error e) ∧
    function_call_avaliablity (.ok ()) = .ok true := by
  cases e <;> simp [function_call_avaliablity, ChatErr.isResponseError]

/-! ## C10 — dispatch guard -/

/-- C10: whenever the tool name is `None` or the empty string, or the
arguments value is not a mapping, `handle_tool_call` returns the fixed
string "Invalid tool name or arguments." without invoking the execution
channel (the returned flag is `false`), and it does not raise (the result is
an `ok`). -/
theorem c10_dispatch_guard (tn : Option Json) (args : Json)
    (channel : Chars → Json → Except Fault (Option ToolCallRes))
    (h : tn = none ∨ tn = some (.str []) ∨ args.isObj = false) :
    handle_tool_call tn args channel = .ok (invalidToolMsg, false) := by
  rcases h with h | h | h
  · subst h; simp [handle_tool_call, pyTruthyOpt]
  · subst h; simp [handle_tool_call, pyTruthyOpt, pyTruthy]
  · simp [handle_tool_call, h]

/-- C10 witness: the guard at a concrete call. -/
theorem c10_dispatch_guard_witness :
    handle_tool_call none (Json.obj .nil) noneChannel = .ok (invalidToolMsg, false) :=
  c10_dispatch_guard none (Json.obj .nil) noneChannel (Or.inl rfl)

/-! ## C2 — memory truncation bound and system-turn survival -/

/-- C2 counterexample: the truncation performed on load keeps the last
`max_history` turns, so a leading system turn is discarded whenever the
loaded history exceeds the bound — here with `max_history = 3` on a
five-turn history headed by a system turn. -/
theorem c2_load_truncation_drops_system :
    3 < exHistory.length ∧
    exHistory.head? = some ⟨systemRole, ("be helpful").toList⟩ ∧
    (loadTruncate 3 exHistory).length = 3 ∧
    (loadTruncate 3 exHistory).head? ≠ some ⟨systemRole, ("be helpful").toList⟩ := by
  refine ⟨by decide, rfl, rfl, by decide⟩

/-- C2 amended: for `max_history ≥ 2`, the truncation performed after the
chat append keeps the length at most `max_history`; when the pre-truncation
size exceeded the bound the post-truncation size is exactly `max_history`
and turn 0 (the leading system turn when one existed) is preserved.  The
truncation performed on load also bounds the length by `max_history`, but it
keeps the last `max_history` turns, so it does not preserve turn 0. -/
theorem c2_truncation_bounds (maxH : Nat) (h : List Turn) (hm : 2 ≤ maxH) :
    (chatTruncate maxH h).length ≤ maxH ∧
    (maxH < h.length →
      (chatTruncate maxH h).length = maxH ∧ (chatTruncate maxH h).head? = h.head?) ∧
    (loadTruncate maxH h).length ≤ maxH := by
  have hm0 : maxH ≠ 0 := by omega
  have hm1 : maxH ≠ 1 := by omega
  refine ⟨?_, fun hlen => ⟨?_, ?_⟩, ?_⟩
  · by_cases hlen : maxH < h.length
    · simp only [chatTruncate, gt_iff_lt, hlen, if_true, hm0, hm1, if_false,
        List.length_append, List.length_take, List.length_drop]
      omega
    · simp only [chatTruncate, gt_iff_lt, hlen, if_false]
      omega
  · simp only [chatTruncate, gt_iff_lt, hlen, if_true, hm0, hm1, if_false,
      List.length_append, List.length_take, List.length_drop]
    omega
  · cases h with
    | nil => simp at hlen
    | cons a t =>
      simp only [chatTruncate, gt_iff_lt, hlen, if_true, hm0, hm1, if_false]
      simp [List.take]
  · by_cases hlen : maxH < h.length
    · simp only [loadTruncate, gt_iff_lt, hlen, if_true, hm0, if_false, List.length_drop]
      omega
    · simp only [loadTruncate, gt_iff_lt, hlen, if_false]
      omega

/-- C2 amended witness: the bounds at `max_history = 3` on the five-turn
history. -/
theorem c2_truncation_bounds_witness :
    (chatTruncate 3 exHistory).length ≤ 3 ∧
    (3 < exHistory.length →
      (chatTruncate 3 exHistory).length = 3 ∧
      (chatTruncate 3 exHistory).head? = exHistory.head?) ∧
    (loadTruncate 3 exHistory).length ≤ 3 :=
  c2_truncation_bounds 3 exHistory (by decide)

/-! ## C5 — append-only except truncation -/

/-- A three-turn stored history for the turn-overwrite counterexample. -/
def c5Stored : List Turn :=
  [⟨systemRole, ("s").toList⟩, ⟨userRole, ("hello").toList⟩, ⟨assistantRole, ("hi").toList⟩]

/-- C5 counterexample: one pipeline `chat` call overwrites the content of the
already-stored turn at index 1 with the token count — the result is exactly
the stored history with turn 1's content replaced and two turns appended, so
the sequence is not append-only-except-truncation. -/
theorem c5_chat_overwrites_turn_one :
    chatHistoryUpdate 15 (("inst").toList) (("q").toList) (("a").toList) (("37").toList) c5Stored =
      [⟨systemRole, ("s").toList⟩, ⟨userRole, ("37").toList⟩, ⟨assistantRole, ("hi").toList⟩,
       ⟨userRole, ("q").toList⟩, ⟨assistantRole, ("a").toList⟩] ∧
    c5Stored.get? 1 = some ⟨userRole, ("hello").toList⟩ ∧
    (("37").toList : Chars) ≠ ("hello").toList :=
  ⟨rfl, rfl, by decide⟩

/-- Length is invariant under the token-count overwrite. -/
theorem setTokenCount_length (tok : Chars) (l : List Turn) :
    (setTokenCount tok l).length = l.length := by
  match l with
  | [] => rfl
  | [x] => rfl
  | x :: y :: t => simp [setTokenCount]

/-- The chat truncation is the identity when the size is within the bound. -/
theorem chatTruncate_of_le (maxH : Nat) (l : List Turn) (h : l.length ≤ maxH) :
    chatTruncate maxH l = l := by
  simp only [chatTruncate, gt_iff_lt]
  rw [if_neg (by omega)]

/-- The load truncation is the identity when the size is within the bound. -/
theorem loadTruncate_of_le (maxH : Nat) (l : List Turn) (h : l.length ≤ maxH) :
    loadTruncate maxH l = l := by
  simp only [loadTruncate, gt_iff_lt]
  rw [if_neg (by omega)]

/-- C5 amended: apart from overwriting the content (never the role) of the
turn at index 1 with the token count, a pipeline `chat` call only inserts the
system turn at position 0 when absent and appends the user and assistant
turns (no truncation occurs when the bound is large enough). -/
theorem c5_chat_mutation_shape (stored : List Turn) (maxH : Nat) (sys u a tok : Chars)
    (hlen : stored.length + 3 ≤ maxH) :
    (∃ ins : List Turn,
      (ins = [] ∨ ins = [⟨systemRole, sys⟩]) ∧
      chatHistoryUpdate maxH sys u a tok stored =
        setTokenCount tok ((ins ++ stored) ++ [⟨userRole, u⟩]) ++ [⟨assistantRole, a⟩]) ∧
    (∀ (l : List Turn) (i : Nat), i ≠ 1 → (setTokenCount tok l).get? i = l.get? i) ∧
    (∀ l : List Turn, ((setTokenCount tok l).get? 1).map Turn.role = (l.get? 1).map Turn.role) := by
  refine ⟨?_, ?_, ?_⟩
  · have hload : loadTruncate maxH stored = stored :=
      loadTruncate_of_le maxH stored (by omega)
    by_cases hsys : stored.any (fun t => t.role == systemRole)
    · refine ⟨[], Or.inl rfl, ?_⟩
      simp only [chatHistoryUpdate, hload, ensureSystem, hsys, if_true, List.nil_append]
      apply chatTruncate_of_le
      simp only [List.length_append, setTokenCount_length, List.length_cons, List.length_nil]
      omega
    · refine ⟨[⟨systemRole, sys⟩], Or.inr rfl, ?_⟩
      simp only [chatHistoryUpdate, hload, ensureSystem, hsys, Bool.false_eq_true, if_false,
        List.singleton_append]
      apply chatTruncate_of_le
      simp only [List.length_append, setTokenCount_length, List.length_cons, List.length_nil]
      omega
  · intro l i hi
    match l, i with
    | [], _ => rfl
    | [x], _ => rfl
    | x :: y :: t, 0 => rfl
    | x :: y :: t, 1 => exact absurd rfl hi
    | x :: y :: t, n + 2 => rfl
  · intro l
    match l with
    | [] => rfl
    | [x] => rfl
    | x :: y :: t => rfl

/-- C5 amended witness: the mutation shape at a concrete two-turn history. -/
theorem c5_chat_mutation_shape_witness :
    (∃ ins : List Turn,
      (ins = [] ∨ ins = [⟨systemRole, ("inst").toList⟩]) ∧
      chatHistoryUpdate 15 (("inst").toList) (("q").toList) (("a").toList) (("5").toList)
          [⟨userRole, ("x").toList⟩, ⟨assistantRole, ("y").toList⟩] =
        setTokenCount (("5").toList)
          ((ins ++ [⟨userRole, ("x").toList⟩, ⟨assistantRole, ("y").toList⟩]) ++
            [⟨userRole, ("q").toList⟩]) ++ [⟨assistantRole, ("a").toList⟩]) ∧
    (∀ (l : List Turn) (i : Nat), i ≠ 1 →
      (setTokenCount (("5").toList) l).get? i = l.get? i) ∧
    (∀ l : List Turn,
      ((setTokenCount (("5").toList) l).get? 1).map Turn.role = (l.get? 1).map Turn.role) :=
  c5_chat_mutation_shape [⟨userRole, ("x").toList⟩, ⟨assistantRole, ("y").toList⟩]
    15 (("inst").toList) (("q").toList) (("a").toList) (("5").toList) (by decide)

/-! ## C7 — tool-result normalization -/

/-- A text content part whose `type` attribute is present. -/
def textPart (s : Chars) : ContentItem :=
  ⟨some (("text").toList), ("TextContent").toList, some s, none, s⟩

/-- An image content part (typed). -/
def imagePart : ContentItem :=
  ⟨some (("image").toList), ("ImageContent").toList, none, none, ("<img>").toList⟩

/-- The raw `str(result)` of the counterexample result object. -/
def c7Raw : Chars := ("CallToolResult(meta=None content=[...] isError=False)").toList

def c7Res : ToolCallRes := ⟨[textPart (("[]").toList)], none, c7Raw⟩

/-- C7 counterexample: when the concatenated part text is the empty-looking
`"[]"`, the source does not return the standardized no-signal message — it
falls through to `str(result)` and returns that raw rendering. -/
theorem c7_empty_parts_fall_to_raw :
    joinNl (c7Res.content.map renderItem) = ("[]").toList ∧
    normalizeResult (some c7Res) = c7Raw ∧
    normalizeResult (some c7Res) ≠ noSignalMsg :=
  ⟨rfl, rfl, by decide⟩

/-- C7 amended: with content parts present, the normalized output is the
newline-concatenation of the part renderings (placeholders for image, audio
and resource parts, best-effort string conversion for unrecognized kinds)
whenever that concatenation is not empty-looking; an empty-looking
concatenation is never returned — the code falls back to the raw `str()`
rendering of the result and produces the standardized no-signal message only
when that fallback is itself empty-looking. -/
theorem c7_normalization (r : ToolCallRes) (t cn astr u : Chars) (txt uri : Option Chars)
    (hc : r.content ≠ [])
    (ht : t ≠ ("text").toList ∧ t ≠ ("image").toList ∧
          t ≠ ("audio").toList ∧ t ≠ ("resource").toList) :
    (normalizeResult (some r) =
      (if emptyLooking (joinNl (r.content.map renderItem))
       then lastResortStr r
       else joinNl (r.content.map renderItem))) ∧
    renderItem ⟨some (("image").toList), cn, txt, uri, astr⟩ = imagePlaceholder ∧
    renderItem ⟨some (("audio").toList), cn, txt, uri, astr⟩ = audioPlaceholder ∧
    renderItem ⟨some (("resource").toList), cn, txt, some u, astr⟩ =
      ("[Resource: ").toList ++ u ++ [']'] ∧
    renderItem ⟨some t, cn, txt, uri, astr⟩ = astr ∧
    renderItem ⟨some (("text").toList), cn, some u, uri, astr⟩ = u ∧
    (emptyLooking r.rawStr = true → lastResortStr r = noSignalMsg) := by
  obtain ⟨ht1, ht2, ht3, ht4⟩ := ht
  have ht1l : t ≠ ['t', 'e', 'x', 't'] := ht1
  have ht2l : t ≠ ['i', 'm', 'a', 'g', 'e'] := ht2
  have ht3l : t ≠ ['a', 'u', 'd', 'i', 'o'] := ht3
  have ht4l : t ≠ ['r', 'e', 's', 'o', 'u', 'r', 'c', 'e'] := ht4
  refine ⟨?_, by simp [renderItem], by simp [renderItem], by simp [renderItem, resourcePlaceholder],
    by simp [renderItem, ht1l, ht2l, ht3l, ht4l], by simp [renderItem], ?_⟩
  · have hparts : r.content.map renderItem ≠ [] := by
      simpa using hc
    by_cases he : emptyLooking (joinNl (r.content.map renderItem))
    · have hne : ¬ (joinNl (r.content.map renderItem) ≠ [] &&
          !(emptyLooking (joinNl (r.content.map renderItem)))) = true := by
        simp [he]
      simp [normalizeResult, hc, hparts, he, hne]
    · have hn : joinNl (r.content.map renderItem) ≠ [] := by
        intro h0
        apply he
        simp [emptyLooking, h0]
      simp [normalizeResult, hc, hparts, he, hn]
  · intro he
    simp [lastResortStr, he]

/-- C7 amended witness: the normalization equations at a concrete result
carrying one image part. -/
theorem c7_normalization_witness :
    (normalizeResult (some ⟨[imagePart], none, ("raw").toList⟩) =
      (if emptyLooking (joinNl (([imagePart] : List ContentItem).map renderItem))
       then lastResortStr ⟨[imagePart], none, ("raw").toList⟩
       else joinNl (([imagePart] : List ContentItem).map renderItem))) ∧
    renderItem ⟨some (("image").toList), ("C").toList, none, none, ("z").toList⟩ =
      imagePlaceholder ∧
    renderItem ⟨some (("audio").toList), ("C").toList, none, none, ("z").toList⟩ =
      audioPlaceholder ∧
    renderItem ⟨some (("resource").toList), ("C").toList, none, some (("u://x").toList),
      ("z").toList⟩ = ("[Resource: ").toList ++ ("u://x").toList ++ [']'] ∧
    renderItem ⟨some (("weird").toList), ("C").toList, none, none, ("z").toList⟩ =
      ("z").toList ∧
    renderItem ⟨some (("text").toList), ("C").toList, some (("u://x").toList), none,
      ("z").toList⟩ = ("u://x").toList ∧
    (emptyLooking (("raw").toList) = true →
      lastResortStr ⟨[imagePart], none, ("raw").toList⟩ = noSignalMsg) :=
  c7_normalization ⟨[imagePart], none, ("raw").toList⟩ (("weird").toList) (("C").toList)
    (("z").toList) (("u://x").toList) none none (by decide) (by decide)

/-! ## C3 — second-pass formatting of tool results -/

/-- A channel that answers every call with one text part "RESULT". -/
def c3Channel : Chars → Json → Except Fault (Option ToolCallRes) :=
  fun _ _ => .ok (some ⟨[textPart (("RESULT").toList)], none, ("raw").toList⟩)

/-- A formatter that rewrites everything to "FORMATTED". -/
def c3Fmt : Chars → Except Fault Chars := fun _ => .ok (("FORMATTED").toList)

/-- C3 counterexample: on the native `tool_calls` branch the orchestrator
returns the dispatch result tagged "Tool Call Result" without ever invoking
the second-pass formatter — the trace holds only the dispatch event, and the
output is the raw dispatch result, not the formatter's output. -/
theorem c3_native_branch_skips_formatter :
    handle_user_query (.ok true)
        (.ok (.rdict [] [((("t1").toList), Json.obj .nil)])) c3Channel c3Fmt =
      (toolTag ++ ("RESULT").toList,
       [AgentEvent.dispatched (("t1").toList) (Json.obj .nil)]) ∧
    (∀ s, AgentEvent.formatted s ∉
       [AgentEvent.dispatched (("t1").toList) (Json.obj .nil)]) ∧
    toolTag ++ ("RESULT").toList ≠ toolTag ++ ("FORMATTED").toList := by
  refine ⟨rfl, fun s => by simp, by decide⟩

/-- Events produced by the native dispatch loop are dispatch events only. -/
theorem nativeLoop_events_dispatched
    (channel : Chars → Json → Except Fault (Option ToolCallRes))
    (calls : List (Chars × Json)) (acc res : Chars) (evs0 evs : List AgentEvent)
    (h : nativeLoop channel calls acc evs0 = .ok (res, evs)) :
    ∀ x, AgentEvent.formatted x ∈ evs → AgentEvent.formatted x ∈ evs0 := by
  induction calls generalizing acc evs0 with
  | nil =>
    simp only [nativeLoop, Except.ok.injEq, Prod.mk.injEq] at h
    intro x hx
    rw [← h.2] at hx
    exact hx
  | cons p rest ih =>
    obtain ⟨n, a⟩ := p
    simp only [nativeLoop] at h
    cases hc : handle_tool_call (some (.str n)) a channel with
    | error f => rw [hc] at h; exact absurd h (by simp)
    | ok ri =>
      obtain ⟨r, inv⟩ := ri
      rw [hc] at h
      intro x hx
      have := ih r (evs0 ++ (if inv then [.dispatched n a] else [])) h x hx
      rcases List.mem_append.mp this with hin | hin
      · exact hin
      · exfalso
        cases inv <;> simp at hin

/-- C3 amended: the text-extraction branch always runs the second-pass
formatter on the dispatch result (no matter what that result is, the
no-signal message included) before returning the answer tagged "Tool Call
Result"; the native `tool_calls` branch instead dispatches each call
sequentially and returns the last dispatch result with that tag but without
the formatter — its event trace contains no formatting event. -/
theorem c3_formatting_branches
    (channel : Chars → Json → Except Fault (Option ToolCallRes))
    (fmt : Chars → Except Fault Chars)
    (b inv : Bool) (s content r fr res content2 : Chars) (tn argsj : Json)
    (calls : List (Chars × Json)) (evs : List AgentEvent)
    (h1 : strContentOf s = .ok content)
    (h2 : handle_json_fields content = .ok (some tn, argsj))
    (h3 : handle_tool_call (some tn) argsj channel = .ok (r, inv))
    (h4 : fmt r = .ok fr)
    (h5 : calls ≠ [])
    (h6 : nativeLoop channel calls [] [] = .ok (res, evs)) :
    handle_user_query (.ok b) (.ok (.rstr s)) channel fmt =
      (toolTag ++ fr,
       (if inv then [.dispatched (pyStr tn) argsj] else []) ++ [.formatted r]) ∧
    handle_user_query (.ok true) (.ok (.rdict content2 calls)) channel fmt =
      (toolTag ++ res, evs) ∧
    (∀ x, AgentEvent.formatted x ∉ evs) := by
  refine ⟨?_, ?_, ?_⟩
  · cases b <;>
      simp [handle_user_query, queryBody, extractAndDispatch, h1, h2, h3, h4]
  · cases calls with
    | nil => exact absurd rfl h5
    | cons c rest =>
      simp [handle_user_query, queryBody, h6]
  · intro x hx
    exact absurd (nativeLoop_events_dispatched channel calls [] res [] evs h6 x hx) (by simp)

/-- The free-text tool call used to exercise the text-extraction branch. -/
def c3Text : Chars :=
  ("\x7b\"tool_name\": \"google_search\", \"args\": \x7b\"query\": \"x\"\x7d\x7d").toList

/-- C3 amended witness: both branches at concrete inputs. -/
theorem c3_formatting_branches_witness :
    handle_user_query (.ok false) (.ok (.rstr c3Text)) c3Channel c3Fmt =
      (toolTag ++ ("FORMATTED").toList,
       (if true then [.dispatched (pyStr (.str (("google_search").toList)))
          (Json.obj (.cons queryKey (.str (("x").toList)) .nil))] else []) ++
         [.formatted (("RESULT").toList)]) ∧
    handle_user_query (.ok true)
        (.ok (.rdict [] [((("t1").toList), Json.obj .nil)])) c3Channel c3Fmt =
      (toolTag ++ ("RESULT").toList,
       [AgentEvent.dispatched (("t1").toList) (Json.obj .nil)]) ∧
    (∀ x, AgentEvent.formatted x ∉
       [AgentEvent.dispatched (("t1").toList) (Json.obj .nil)]) :=
  c3_formatting_branches c3Channel c3Fmt false true c3Text c3Text
    (("RESULT").toList) (("FORMATTED").toList) (("RESULT").toList) []
    (.str (("google_search").toList))
    (Json.obj (.cons queryKey (.str (("x").toList)) .nil))
    [((("t1").toList), Json.obj .nil)]
    [AgentEvent.dispatched (("t1").toList) (Json.obj .nil)]
    rfl rfl rfl rfl (by simp) rfl

/-! ## C6 — fault containment at the orchestrator boundary -/

/-- An identity formatter. -/
def idFmt : Chars → Except Fault Chars := fun s => .ok s

/-- C6 counterexample: a fault in the memory persist happens inside `chat`'s
own `try` and is swallowed there into the fixed message "Error: Failed to
get response from model"; `handle_user_query` then treats that message as
ordinary content and returns it as a Direct Response — not as the terminal
error string, and without the fault's description. -/
theorem c6_persist_fault_not_terminal :
    handle_user_query (.ok true)
        ((chatStep (.ok ⟨("4").toList⟩) (.error ⟨("disk full").toList⟩)).map .rstr)
        noneChannel idFmt =
      (directTag ++ chatFailMsg, []) ∧
    hasSub (("disk full").toList) (directTag ++ chatFailMsg) = false ∧
    directTag ++ chatFailMsg ≠ errTag ++ ("disk full").toList := by
  refine ⟨rfl, by decide, by decide⟩

/-- C6 amended: faults of the capability probe, of the model transport call
(raised outside `chat`'s internal `try`), of the tool dispatch and of the
second-pass formatter never escape `handle_user_query` — each is converted
into the terminal string "❌ **Error processing query:** " followed by the
fault's description.  Faults raised inside `chat`'s response processing or
memory persist are swallowed earlier, inside `chat` itself, and surface as an
ordinary Direct Response carrying a fixed message without the fault's
description. -/
theorem c6_fault_containment
    (ch1 ch2 : Chars → Json → Except Fault (Option ToolCallRes))
    (fmt : Chars → Except Fault Chars)
    (resp : Except Fault ModelResp)
    (fa fb fc fd fe pf : Fault) (b : Bool) (raw : RawResp) (persist : Except Fault Unit)
    (s content r : Chars) (inv : Bool) (tn argsj : Json)
    (h1 : strContentOf s = .ok content)
    (h2 : handle_json_fields content = .ok (some tn, argsj))
    (h3 : handle_tool_call (some tn) argsj ch1 = .error fd)
    (h4 : handle_tool_call (some tn) argsj ch2 = .ok (r, inv))
    (h5 : fmt r = .error fe) :
    handle_user_query (.error fa) resp ch1 fmt = (errTag ++ fa.msg, []) ∧
    handle_user_query (.ok b) (.error fb) ch1 fmt = (errTag ++ fb.msg, []) ∧
    handle_user_query (.ok b) ((chatStep (.error fc) persist).map .rstr) ch1 fmt =
      (errTag ++ fc.msg, []) ∧
    handle_user_query (.ok b) (.ok (.rstr s)) ch1 fmt = (errTag ++ fd.msg, []) ∧
    handle_user_query (.ok b) (.ok (.rstr s)) ch2 fmt = (errTag ++ fe.msg, []) ∧
    handle_user_query (.ok b) ((chatStep (.ok raw) (.error pf)).map .rstr) ch1 fmt =
      (directTag ++ chatFailMsg, []) := by
  have hcontent : strContentOf chatFailMsg = .ok chatFailMsg := rfl
  have hfail : handle_json_fields chatFailMsg = .ok (none, Json.obj .nil) := rfl
  refine ⟨rfl, rfl, ?_, ?_, ?_, ?_⟩
  · simp [handle_user_query, queryBody, chatStep, Except.map]
  · cases b <;>
      simp [handle_user_query, queryBody, extractAndDispatch, h1, h2, h3]
  · cases b <;>
      simp [handle_user_query, queryBody, extractAndDispatch, h1, h2, h4, h5]
  · cases b <;>
      simp [handle_user_query, queryBody, chatStep, Except.map, extractAndDispatch,
        hcontent, hfail]

/-- A channel whose call always faults. -/
def downChannel : Chars → Json → Except Fault (Option ToolCallRes) :=
  fun _ _ => .error ⟨("connection refused").toList⟩

/-- A formatter whose model call always faults. -/
def downFmt : Chars → Except Fault Chars := fun _ => .error ⟨("model gone").toList⟩

/-- C6 amended witness: the fault-containment equations at concrete faults. -/
theorem c6_fault_containment_witness :
    handle_user_query (.error ⟨("probe boom").toList⟩) (.ok (.rstr [])) downChannel downFmt =
      (errTag ++ ("probe boom").toList, []) ∧
    handle_user_query (.ok false) (.error ⟨("chat boom").toList⟩) downChannel downFmt =
      (errTag ++ ("chat boom").toList, []) ∧
    handle_user_query (.ok false)
        ((chatStep (.error ⟨("no route").toList⟩) (.ok ())).map .rstr) downChannel downFmt =
      (errTag ++ ("no route").toList, []) ∧
    handle_user_query (.ok false) (.ok (.rstr c3Text)) downChannel downFmt =
      (errTag ++ ("connection refused").toList, []) ∧
    handle_user_query (.ok false) (.ok (.rstr c3Text)) c3Channel downFmt =
      (errTag ++ ("model gone").toList, []) ∧
    handle_user_query (.ok false)
        ((chatStep (.ok ⟨("4").toList⟩) (.error ⟨("disk full").toList⟩)).map .rstr)
        downChannel downFmt =
      (directTag ++ chatFailMsg, []) :=
  c6_fault_containment downChannel c3Channel downFmt (.ok (.rstr []))
    ⟨("probe boom").toList⟩ ⟨("chat boom").toList⟩ ⟨("no route").toList⟩
    ⟨("connection refused").toList⟩ ⟨("model gone").toList⟩ ⟨("disk full").toList⟩
    false ⟨("4").toList⟩ (.ok ()) c3Text c3Text (("RESULT").toList) true
    (.str (("google_search").toList))
    (Json.obj (.cons queryKey (.str (("x").toList)) .nil))
    rfl rfl rfl rfl rfl

/-! ## C1 — round-trip extraction (counterexample) -/

/-- C1 counterexample: rendering the invocation `list_directory` with the
flat arguments `{"path": "data"}` in the wire shape and extracting from it
loses the arguments — the strict scan cannot cross the nested `args` braces,
the flexible scan produces a brace-unbalanced candidate, and the regex
recovery only knows `tool_name` and `query`, so the result carries an empty
mapping instead of `{"path": "data"}`. -/
theorem c1_roundtrip_fails_on_path_args :
    handle_json_fields
        (renderInvocation (("list_directory").toList)
          [((("path").toList), (("data").toList))]) =
      .ok (some (.str (("list_directory").toList)), Json.obj .nil) ∧
    Json.obj .nil ≠
      Json.obj (.cons (("path").toList) (.str (("data").toList)) .nil) :=
  ⟨rfl, by decide⟩

/-! ## Search-failure lemmas (used for the plain-prose and round-trip claims) -/

theorem startsWith_mono (p s u : Chars) (h : startsWith p s = true) :
    startsWith p (s ++ u) = true := by
  induction p generalizing s with
  | nil => rfl
  | cons a ps ih =>
    cases s with
    | nil => simp [startsWith] at h
    | cons c cs =>
      simp only [startsWith, Bool.and_eq_true, beq_iff_eq] at h
      simp only [List.cons_append, startsWith, Bool.and_eq_true, beq_iff_eq]
      exact ⟨h.1, ih cs h.2⟩

theorem hasSub_of_startsWith (p t : Chars) (h : startsWith p t = true) :
    hasSub p t = true := by
  cases t with
  | nil => exact h
  | cons c cs => simp only [hasSub, Bool.or_eq_true]; exact Or.inl h

theorem hasSub_append_left (p xs ys : Chars) (h : hasSub p xs = true) :
    hasSub p (xs ++ ys) = true := by
  induction xs with
  | nil =>
    cases p with
    | nil => cases ys <;> simp [hasSub, startsWith]
    | cons a ps => simp [hasSub, startsWith] at h
  | cons c cs ih =>
    simp only [hasSub, Bool.or_eq_true] at h
    simp only [List.cons_append, hasSub, Bool.or_eq_true]
    rcases h with h | h
    · exact Or.inl (startsWith_mono _ _ _ h)
    · exact Or.inr (ih h)

theorem hasSub_append_right (p xs ys : Chars) (h : hasSub p ys = true) :
    hasSub p (xs ++ ys) = true := by
  induction xs with
  | nil => simpa using h
  | cons c cs ih =>
    simp only [List.cons_append, hasSub, Bool.or_eq_true]
    exact Or.inr ih

theorem hasSub_cons (p : Chars) (c : Char) (t : Chars) (h : hasSub p t = true) :
    hasSub p (c :: t) = true :=
  hasSub_append_right p [c] t h

theorem hasSub_suffix (p t s : Chars) (hts : t <:+ s) (h : hasSub p t = true) :
    hasSub p s = true := by
  obtain ⟨u, hu⟩ := hts
  rw [← hu]
  exact hasSub_append_right p u t h

theorem searchO_some_suffix (f : Chars → Option Chars) (s : Chars) (r : Chars)
    (h : searchO f s = some r) : ∃ t, t <:+ s ∧ f t = some r := by
  induction s with
  | nil => exact ⟨[], List.suffix_rfl, h⟩
  | cons c cs ih =>
    simp only [searchO] at h
    cases hf : f (c :: cs) with
    | some r2 =>
      simp only [hf] at h
      exact ⟨c :: cs, List.suffix_rfl, hf.trans (by rw [h])⟩
    | none =>
      simp only [hf] at h
      obtain ⟨t, hts, hft⟩ := ih h
      exact ⟨t, hts.trans (List.suffix_cons c cs), hft⟩

theorem braceSplit_recon (s : Chars) : (braceSplit s).1 ++ (braceSplit s).2 = s := by
  induction s with
  | nil => rfl
  | cons c cs ih =>
    by_cases hb : isBrace c
    · simp [braceSplit, hb]
    · simp only [braceSplit, hb, Bool.false_eq_true, if_false]
      simpa using ih

theorem splitAtFirst_recon (k : Char) (s : Chars) :
    ∀ run rest, splitAtFirst k s = some (run, rest) → run ++ k :: rest = s := by
  induction s with
  | nil => intro run rest h; simp [splitAtFirst] at h
  | cons c cs ih =>
    intro run rest h
    simp only [splitAtFirst] at h
    by_cases hc : c = k
    · rw [if_pos hc] at h
      simp only [Option.some.injEq, Prod.mk.injEq] at h
      rw [← h.1, ← h.2, hc]
      rfl
    · rw [if_neg hc] at h
      cases hs : splitAtFirst k cs with
      | none =>
        simp only [hs] at h
        exact Option.noConfusion h
      | some pr =>
        obtain ⟨run2, rest2⟩ := pr
        simp only [hs, Option.some.injEq, Prod.mk.injEq] at h
        rw [← h.1, ← h.2]
        simp only [List.cons_append]
        rw [ih run2 rest2 hs]

theorem strictAt_some (t r : Chars) (h : strictAt t = some r) :
    lbrace ∈ t ∧ hasSub qToolName t = true := by
  cases t with
  | nil => simp [strictAt] at h
  | cons c cs =>
    simp only [strictAt] at h
    by_cases hc : c = lbrace
    · subst hc
      rw [if_pos rfl] at h
      refine ⟨List.mem_cons_self _ _, ?_⟩
      cases hbs : braceSplit cs with
      | mk run rest =>
        simp only [hbs] at h
        cases rest with
        | nil => exact Option.noConfusion h
        | cons d ds =>
          have h2 : (if (decide (d = rbrace) && hasSub qToolName run) = true then
              some (lbrace :: run ++ [rbrace]) else none) = some r := h
          by_cases hcnd : (decide (d = rbrace) && hasSub qToolName run) = true
          · have hsubrun : hasSub qToolName run = true := by
              simp only [Bool.and_eq_true, decide_eq_true_eq] at hcnd
              exact hcnd.2
            have hrc := braceSplit_recon cs
            rw [hbs] at hrc
            have : hasSub qToolName cs = true := by
              rw [← hrc]
              exact hasSub_append_left _ _ _ hsubrun
            exact hasSub_cons _ _ _ this
          · rw [if_neg hcnd] at h2
            exact Option.noConfusion h2
    · rw [if_neg hc] at h
      exact Option.noConfusion h

theorem flexAt_some (t r : Chars) (h : flexAt t = some r) :
    lbrace ∈ t ∧ hasSub qToolName t = true := by
  cases t with
  | nil => simp [flexAt] at h
  | cons c cs =>
    simp only [flexAt] at h
    by_cases hc : c = lbrace
    · subst hc
      rw [if_pos rfl] at h
      refine ⟨List.mem_cons_self _ _, ?_⟩
      cases hsp : splitAtFirst rbrace cs with
      | none =>
        simp only [hsp] at h
        exact Option.noConfusion h
      | some pr =>
        obtain ⟨run, rest⟩ := pr
        simp only [hsp] at h
        by_cases hcnd : hasSub qToolName run = true
        · have hrc := splitAtFirst_recon rbrace cs run rest hsp
          have : hasSub qToolName cs = true := by
            rw [← hrc]
            exact hasSub_append_left _ _ _ hcnd
          exact hasSub_cons _ _ _ this
        · rw [if_neg hcnd] at h
          exact Option.noConfusion h
    · rw [if_neg hc] at h
      exact Option.noConfusion h

theorem fenceAt_some (t r : Chars) (h : fenceAt t = some r) :
    hasSub fenceMarker t = true := by
  by_cases hs : startsWith [btick, btick, btick] t = true
  · exact hasSub_of_startsWith _ _ hs
  · simp only [fenceAt] at h
    rw [if_neg hs] at h
    exact absurd h (by simp)

/-! ## C8 — plain-prose classification -/

/-- C8: any text containing neither a fence marker nor both a `{` character
and the literal key `"tool_name"` makes the extractor return no call (and no
exception): all three scans require one of those markers, so the candidate
selection fails and the marker classification returns `(None, {})`. -/
theorem c8_plain_prose_returns_none (text : Chars)
    (hfence : hasSub fenceMarker text = false)
    (hjson : ¬(lbrace ∈ text ∧ hasSub qToolName text = true)) :
    handle_json_fields text = .ok (none, Json.obj .nil) := by
  have hstrict : searchO strictAt text = none := by
    cases hs : searchO strictAt text with
    | none => rfl
    | some r =>
      obtain ⟨t, hts, hf⟩ := searchO_some_suffix _ _ _ hs
      obtain ⟨hmem, hsub⟩ := strictAt_some _ _ hf
      exact absurd ⟨hts.subset hmem, hasSub_suffix _ _ _ hts hsub⟩ hjson
  have hflex : searchO flexAt text = none := by
    cases hs : searchO flexAt text with
    | none => rfl
    | some r =>
      obtain ⟨t, hts, hf⟩ := searchO_some_suffix _ _ _ hs
      obtain ⟨hmem, hsub⟩ := flexAt_some _ _ hf
      exact absurd ⟨hts.subset hmem, hasSub_suffix _ _ _ hts hsub⟩ hjson
  have hfen : searchO fenceAt text = none := by
    cases hs : searchO fenceAt text with
    | none => rfl
    | some r =>
      obtain ⟨t, hts, hf⟩ := searchO_some_suffix _ _ _ hs
      have := hasSub_suffix _ _ _ hts (fenceAt_some _ _ hf)
      rw [hfence] at this
      exact absurd this (by simp)
  simp [handle_json_fields, jsonCandidate, hstrict, hflex, hfen]

/-- C8 witness: the spec's own example sentence. -/
theorem c8_plain_prose_witness :
    handle_json_fields (("The sky is blue today.").toList) = .ok (none, Json.obj .nil) :=
  c8_plain_prose_returns_none (("The sky is blue today.").toList) (by decide) (by decide)

/-! ## Infrastructure for the symbolic round-trip proof (C1) -/

/-- Characters that are safe inside a tool name or a flat string argument
value: printable (no raw control characters) and none of the characters that
the extractor's scans, the trailing-comma repair or the JSON string syntax
treat specially. -/
def safeChar (c : Char) : Bool :=
  32 ≤ c.toNat && c != lbrace && c != rbrace && c != dquote && c != btick &&
    c != '\\' && c != ',' && c != '[' && c != ']'

theorem safeChar_spec (c : Char) (h : safeChar c = true) :
    32 ≤ c.toNat ∧ c ≠ lbrace ∧ c ≠ rbrace ∧ c ≠ dquote ∧ c ≠ btick ∧
      c ≠ '\\' ∧ c ≠ ',' ∧ c ≠ '[' ∧ c ≠ ']' := by
  simp only [safeChar, Bool.and_eq_true, bne_iff_ne, decide_eq_true_eq] at h
  tauto

theorem safeChar_not_brace (c : Char) (h : safeChar c = true) : isBrace c = false := by
  obtain ⟨-, h1, h2, -⟩ := safeChar_spec c h
  simp [isBrace, h1, h2]

/-- One step of a failing leftmost search. -/
theorem searchO_cons_none (f : Chars → Option Chars) (c : Char) (t : Chars)
    (hf : f (c :: t) = none) : searchO f (c :: t) = searchO f t := by
  simp only [searchO, hf]

/-- A successful match at the current position ends the leftmost search. -/
theorem searchO_cons_some (f : Chars → Option Chars) (c : Char) (t : Chars) (r : Chars)
    (hf : f (c :: t) = some r) : searchO f (c :: t) = some r := by
  simp only [searchO, hf]

/-- Leftmost search skips a whole segment on which the matcher fails at every
position. -/
theorem searchO_append_none (f : Chars → Option Chars) (xs ys : Chars)
    (hx : ∀ (c : Char) (t : Chars), c ∈ xs → f (c :: t) = none) :
    searchO f (xs ++ ys) = searchO f ys := by
  induction xs with
  | nil => rfl
  | cons c cs ih =>
    rw [List.cons_append,
      searchO_cons_none f c (cs ++ ys) (hx c (cs ++ ys) (by simp))]
    exact ih (fun c2 t hc2 => hx c2 t (by simp [hc2]))

theorem strictAt_cons_ne (c : Char) (t : Chars) (hc : c ≠ lbrace) :
    strictAt (c :: t) = none := by
  simp [strictAt, hc]

theorem flexAt_cons_ne (c : Char) (t : Chars) (hc : c ≠ lbrace) :
    flexAt (c :: t) = none := by
  simp [flexAt, hc]

theorem fenceAt_cons_ne (c : Char) (t : Chars) (hc : c ≠ btick) :
    fenceAt (c :: t) = none := by
  have hs : startsWith [btick, btick, btick] (c :: t) = false := by
    simp [startsWith]
    intro heq
    exact absurd heq.symm hc
  simp [fenceAt, hs]

theorem scrapeAt_cons_ne (key : Chars) (c : Char) (t : Chars) (hc : c ≠ dquote) :
    scrapeAt key (c :: t) = none := by
  have hb : (dquote == c) = false := beq_eq_false_iff_ne.mpr (Ne.symm hc)
  have hs : startsWith (dquote :: key ++ [dquote]) (c :: t) = false := by
    simp [startsWith, hb]
  simp only [scrapeAt, hs, Bool.false_eq_true, if_false]

/-- The scanner helper `braceSplit` passes over a brace-free segment. -/
theorem braceSplit_append_free (xs ys : Chars) (hx : ∀ c ∈ xs, isBrace c = false) :
    braceSplit (xs ++ ys) = (xs ++ (braceSplit ys).1, (braceSplit ys).2) := by
  induction xs with
  | nil => rfl
  | cons c cs ih =>
    rw [List.cons_append]
    simp only [braceSplit, hx c (by simp), Bool.false_eq_true, if_false]
    rw [ih (fun c2 hc2 => hx c2 (by simp [hc2]))]
    simp

/-- The scanner helper `splitAtFirst` passes over a segment free of the split character. -/
theorem splitAtFirst_append_free (k : Char) (xs ys : Chars) (hx : ∀ c ∈ xs, c ≠ k) :
    splitAtFirst k (xs ++ ys) =
      (splitAtFirst k ys).map (fun pr => (xs ++ pr.1, pr.2)) := by
  induction xs with
  | nil => cases h : splitAtFirst k ys <;> simp [h]
  | cons c cs ih =>
    rw [List.cons_append]
    simp only [splitAtFirst, hx c (by simp), if_false]
    rw [ih (fun c2 hc2 => hx c2 (by simp [hc2]))]
    cases h : splitAtFirst k ys <;> simp [h]

theorem startsWith_self_append (p t : Chars) : startsWith p (p ++ t) = true := by
  induction p with
  | nil => rfl
  | cons c cs ih => simp [startsWith, ih]

/-- Disambiguation of a quote-terminated pattern against a quote-free span:
the pattern `p"` matches at the start of `v"rest` exactly when `p = v`. -/
theorem startsWith_qend (p v rest : Chars)
    (hp : ∀ c ∈ p, c ≠ dquote) (hv : ∀ c ∈ v, c ≠ dquote) :
    startsWith (p ++ [dquote]) (v ++ dquote :: rest) = true ↔ p = v := by
  induction p generalizing v with
  | nil =>
    cases v with
    | nil => simp [startsWith]
    | cons c cs =>
      simp only [List.nil_append, List.cons_append, startsWith, Bool.and_eq_true, beq_iff_eq]
      constructor
      · intro hsw
        exact absurd hsw.1.symm (hv c (by simp))
      · intro hsw
        exact absurd hsw.symm (List.cons_ne_nil c cs)
  | cons a ps ih =>
    cases v with
    | nil =>
      simp only [List.cons_append, List.nil_append, startsWith, Bool.and_eq_true, beq_iff_eq]
      constructor
      · intro hsw
        exact absurd hsw.1 (hp a (by simp))
      · intro hsw
        exact absurd hsw (List.cons_ne_nil a ps)
    | cons c cs =>
      simp only [List.cons_append, startsWith, Bool.and_eq_true, beq_iff_eq]
      have hih := ih cs (fun x hx => hp x (by simp [hx])) (fun x hx => hv x (by simp [hx]))
      constructor
      · intro hsw
        rw [hsw.1, hih.mp hsw.2]
      · intro hsw
        injection hsw with h1 h2
        exact ⟨h1, hih.mpr h2⟩

/-- A pattern headed by some character cannot match inside a span free of
that character. -/
theorem hasSub_skip_head (a : Char) (p' v ys : Chars) (hv : ∀ c ∈ v, c ≠ a) :
    hasSub (a :: p') (v ++ ys) = hasSub (a :: p') ys := by
  induction v with
  | nil => rfl
  | cons c cs ih =>
    rw [List.cons_append]
    have hsw : startsWith (a :: p') (c :: (cs ++ ys)) = false := by
      have hb : (a == c) = false :=
        beq_eq_false_iff_ne.mpr (fun h => hv c (by simp) h.symm)
      simp [startsWith, hb]
    rw [show hasSub (a :: p') (c :: (cs ++ ys)) =
        (startsWith (a :: p') (c :: (cs ++ ys)) || hasSub (a :: p') (cs ++ ys)) from rfl,
      hsw, Bool.false_or]
    exact ih (fun c2 hc2 => hv c2 (by simp [hc2]))

/-! ### The rendered wire-shape texts and extraction candidates -/

/-- The fixed characters `"tool_name": "` preceding the rendered name. -/
def fixedSeg1 : Chars :=
  '"' :: 't' :: 'o' :: 'o' :: 'l' :: '_' :: 'n' :: 'a' :: 'm' :: 'e' :: '"' :: ':' :: ' ' :: ['"']

/-- The fixed characters `", "args": ` following the rendered name. -/
def fixedSeg2 : Chars :=
  '"' :: ',' :: ' ' :: '"' :: 'a' :: 'r' :: 'g' :: 's' :: '"' :: ':' :: [' ']

/-- The fixed characters `"query": "` preceding the rendered query value. -/
def fixedSeg3 : Chars :=
  '"' :: 'q' :: 'u' :: 'e' :: 'r' :: 'y' :: '"' :: ':' :: ' ' :: ['"']

/-- The rendered invocation with an empty arguments mapping. -/
def qtextA (n : Chars) : Chars :=
  lbrace :: (fixedSeg1 ++ (n ++ (fixedSeg2 ++ [lbrace, rbrace, rbrace])))

/-- The rendered invocation with the single argument `query`. -/
def qtextB (n v : Chars) : Chars :=
  lbrace :: (fixedSeg1 ++ (n ++ (fixedSeg2 ++
    (lbrace :: (fixedSeg3 ++ (v ++ ['"', rbrace, rbrace]))))))

/-- The candidate cut out by the flexible scan from `qtextA` (brace
unbalanced: the closing brace of the whole wire object is missing). -/
def candA (n : Chars) : Chars :=
  (lbrace :: (fixedSeg1 ++ (n ++ (fixedSeg2 ++ [lbrace])))) ++ [rbrace]

/-- The candidate cut out by the flexible scan from `qtextB` (likewise
brace unbalanced). -/
def candB (n v : Chars) : Chars :=
  (lbrace :: (fixedSeg1 ++ (n ++ (fixedSeg2 ++
    (lbrace :: (fixedSeg3 ++ (v ++ ['"']))))))) ++ [rbrace]

theorem renderInvocation_empty_eq (n : Chars) : renderInvocation n [] = qtextA n := by
  simp [renderInvocation, renderArgs, qu, toolNameKey, argsKey,
    qtextA, fixedSeg1, fixedSeg2, dquote]

theorem renderInvocation_query_eq (n v : Chars) :
    renderInvocation n [(queryKey, v)] = qtextB n v := by
  simp [renderInvocation, renderArgs, qu, toolNameKey, argsKey, queryKey,
    qtextB, fixedSeg1, fixedSeg2, fixedSeg3, dquote]

theorem all_bne_spec (a : Char) (l : Chars) (hl : l.all (fun c => c != a) = true) :
    ∀ c ∈ l, c ≠ a := fun c hc => bne_iff_ne.mp (List.all_eq_true.mp hl c hc)

theorem safe_all (l : Chars) (h : l.all safeChar = true) : ∀ c ∈ l, safeChar c = true :=
  fun c hc => List.all_eq_true.mp h c hc

theorem all_not_brace (l : Chars) (h : l.all (fun c => !(isBrace c)) = true) :
    ∀ c ∈ l, isBrace c = false := fun c hc => by
  have := List.all_eq_true.mp h c hc
  simpa using this

theorem strictAt_lbrace (cs : Chars) :
    strictAt (lbrace :: cs) =
      (match (braceSplit cs).2 with
       | d :: _ =>
         if d = rbrace && hasSub qToolName (braceSplit cs).1 then
           some (lbrace :: (braceSplit cs).1 ++ [rbrace])
         else none
       | [] => none) := by
  simp [strictAt]

theorem flexAt_lbrace (cs : Chars) :
    flexAt (lbrace :: cs) =
      (match splitAtFirst rbrace cs with
       | some pr => if hasSub qToolName pr.1 then some (lbrace :: pr.1 ++ [rbrace]) else none
       | none => none) := by
  simp [flexAt]

theorem sw_tnk_v (v t : Chars) (hv : ∀ c ∈ v, c ≠ dquote) (hvq : v ≠ toolNameKey) :
    startsWith ('t' :: 'o' :: 'o' :: 'l' :: '_' :: 'n' :: 'a' :: 'm' :: 'e' :: '"' :: []) (v ++ '"' :: t) = false := by
  show startsWith (toolNameKey ++ [dquote]) (v ++ dquote :: t) = false
  have hp : ∀ c ∈ toolNameKey, c ≠ dquote := all_bne_spec dquote toolNameKey (by decide)
  rw [Bool.eq_false_iff]
  intro hsw
  exact hvq ((startsWith_qend toolNameKey v t hp hv).mp hsw).symm

theorem hasSub_qtn_v (v t : Chars) (hv : ∀ c ∈ v, c ≠ dquote)
    (ht : hasSub qToolName t = false) :
    hasSub ('"' :: 't' :: 'o' :: 'o' :: 'l' :: '_' :: 'n' :: 'a' :: 'm' :: 'e' :: '"' :: []) (v ++ t) = false := by
  show hasSub (dquote :: (toolNameKey ++ [dquote])) (v ++ t) = false
  rw [hasSub_skip_head dquote (toolNameKey ++ [dquote]) v t hv]
  exact ht

/-- The key `"tool_name"` does not occur inside the rendered `{"query": "V"` span:
the only quote-to-quote stretch that could spell it is the value, excluded by
`V ≠ tool_name`. -/
theorem hasSub_qtn_seg3 (v : Chars) (hv : ∀ c ∈ v, c ≠ dquote) (hvq : v ≠ toolNameKey) :
    hasSub qToolName (fixedSeg3 ++ (v ++ ['"'])) = false := by
  have h9 := hasSub_qtn_v v ['"'] hv (by decide)
  have h9b := sw_tnk_v v [] hv hvq
  simp [fixedSeg3, hasSub, startsWith, qToolName, dquote, h9, h9b]

/-- Any span starting with the fixed `"tool_name": "` prefix contains
`"tool_name"`. -/
theorem hasSub_qtn_seg1 (X : Chars) : hasSub qToolName (fixedSeg1 ++ X) = true := by
  apply hasSub_of_startsWith
  have heq : fixedSeg1 ++ X = qToolName ++ (':' :: ' ' :: '"' :: X) := by
    simp [fixedSeg1, qToolName, dquote]
  rw [heq]
  exact startsWith_self_append _ _

/-- The strict scan fails on the rendered empty-args invocation: at the
outer brace the first following brace is the args opening brace, and at the
args brace the span is empty. -/
theorem strict_search_A (n : Chars) (hn : n.all safeChar = true) :
    searchO strictAt (qtextA n) = none := by
  have hnb : ∀ c ∈ n, isBrace c = false :=
    fun c hc => safeChar_not_brace c (safe_all n hn c hc)
  have hnl : ∀ c ∈ n, c ≠ lbrace :=
    fun c hc => (safeChar_spec c (safe_all n hn c hc)).2.1
  have hb1 : ∀ c ∈ fixedSeg1, isBrace c = false := all_not_brace fixedSeg1 (by decide)
  have hb2 : ∀ c ∈ fixedSeg2, isBrace c = false := all_not_brace fixedSeg2 (by decide)
  have hl1 : ∀ c ∈ fixedSeg1, c ≠ lbrace := all_bne_spec lbrace fixedSeg1 (by decide)
  have hl2 : ∀ c ∈ fixedSeg2, c ≠ lbrace := all_bne_spec lbrace fixedSeg2 (by decide)
  have hbs : braceSplit (fixedSeg1 ++ (n ++ (fixedSeg2 ++ [lbrace, rbrace, rbrace]))) =
      (fixedSeg1 ++ (n ++ fixedSeg2), [lbrace, rbrace, rbrace]) := by
    rw [braceSplit_append_free _ _ hb1, braceSplit_append_free _ _ hnb,
        braceSplit_append_free _ _ hb2]
    simp [braceSplit, isBrace, lbrace, rbrace]
  have h0 : strictAt (lbrace :: (fixedSeg1 ++ (n ++ (fixedSeg2 ++ [lbrace, rbrace, rbrace])))) =
      none := by
    rw [strictAt_lbrace, hbs]
    simp [lbrace, rbrace]
  simp only [qtextA]
  rw [searchO_cons_none _ _ _ h0,
      searchO_append_none _ _ _ (fun c t hc => strictAt_cons_ne c t (hl1 c hc)),
      searchO_append_none _ _ _ (fun c t hc => strictAt_cons_ne c t (hnl c hc)),
      searchO_append_none _ _ _ (fun c t hc => strictAt_cons_ne c t (hl2 c hc))]
  decide

/-- The strict scan fails on the rendered query-args invocation: at the
outer brace the first brace is the args opener; at the args opener the span
up to the first closing brace does not contain `"tool_name"`. -/
theorem strict_search_B (n v : Chars) (hn : n.all safeChar = true)
    (hv : v.all safeChar = true) (hvq : v ≠ toolNameKey) :
    searchO strictAt (qtextB n v) = none := by
  have hnb : ∀ c ∈ n, isBrace c = false :=
    fun c hc => safeChar_not_brace c (safe_all n hn c hc)
  have hvb : ∀ c ∈ v, isBrace c = false :=
    fun c hc => safeChar_not_brace c (safe_all v hv c hc)
  have hnl : ∀ c ∈ n, c ≠ lbrace :=
    fun c hc => (safeChar_spec c (safe_all n hn c hc)).2.1
  have hvl : ∀ c ∈ v, c ≠ lbrace :=
    fun c hc => (safeChar_spec c (safe_all v hv c hc)).2.1
  have hvd : ∀ c ∈ v, c ≠ dquote :=
    fun c hc => (safeChar_spec c (safe_all v hv c hc)).2.2.2.1
  have hb1 : ∀ c ∈ fixedSeg1, isBrace c = false := all_not_brace fixedSeg1 (by decide)
  have hb2 : ∀ c ∈ fixedSeg2, isBrace c = false := all_not_brace fixedSeg2 (by decide)
  have hb3 : ∀ c ∈ fixedSeg3, isBrace c = false := all_not_brace fixedSeg3 (by decide)
  have hl1 : ∀ c ∈ fixedSeg1, c ≠ lbrace := all_bne_spec lbrace fixedSeg1 (by decide)
  have hl2 : ∀ c ∈ fixedSeg2, c ≠ lbrace := all_bne_spec lbrace fixedSeg2 (by decide)
  have hl3 : ∀ c ∈ fixedSeg3, c ≠ lbrace := all_bne_spec lbrace fixedSeg3 (by decide)
  have hbs : braceSplit (fixedSeg1 ++ (n ++ (fixedSeg2 ++
      (lbrace :: (fixedSeg3 ++ (v ++ ['"', rbrace, rbrace])))))) =
      (fixedSeg1 ++ (n ++ fixedSeg2),
       lbrace :: (fixedSeg3 ++ (v ++ ['"', rbrace, rbrace]))) := by
    rw [braceSplit_append_free _ _ hb1, braceSplit_append_free _ _ hnb,
        braceSplit_append_free _ _ hb2]
    simp [braceSplit, isBrace, lbrace, rbrace]
  have h0 : strictAt (lbrace :: (fixedSeg1 ++ (n ++ (fixedSeg2 ++
      (lbrace :: (fixedSeg3 ++ (v ++ ['"', rbrace, rbrace]))))))) = none := by
    rw [strictAt_lbrace, hbs]
    simp [lbrace, rbrace]
  have hbs2 : braceSplit (fixedSeg3 ++ (v ++ ['"', rbrace, rbrace])) =
      (fixedSeg3 ++ (v ++ ['"']), [rbrace, rbrace]) := by
    rw [braceSplit_append_free _ _ hb3, braceSplit_append_free _ _ hvb]
    simp [braceSplit, isBrace, lbrace, rbrace, dquote]
  have h1 : strictAt (lbrace :: (fixedSeg3 ++ (v ++ ['"', rbrace, rbrace]))) = none := by
    rw [strictAt_lbrace, hbs2]
    have hq := hasSub_qtn_seg3 v hvd hvq
    simp [hq]
  simp only [qtextB]
  rw [searchO_cons_none _ _ _ h0,
      searchO_append_none _ _ _ (fun c t hc => strictAt_cons_ne c t (hl1 c hc)),
      searchO_append_none _ _ _ (fun c t hc => strictAt_cons_ne c t (hnl c hc)),
      searchO_append_none _ _ _ (fun c t hc => strictAt_cons_ne c t (hl2 c hc)),
      searchO_cons_none _ _ _ h1,
      searchO_append_none _ _ _ (fun c t hc => strictAt_cons_ne c t (hl3 c hc)),
      searchO_append_none _ _ _ (fun c t hc => strictAt_cons_ne c t (hvl c hc))]
  decide

/-- The fence scan fails on both rendered invocations: no backtick occurs. -/
theorem fence_search_A (n : Chars) (hn : n.all safeChar = true) :
    searchO fenceAt (qtextA n) = none := by
  have hnb : ∀ c ∈ n, c ≠ btick :=
    fun c hc => (safeChar_spec c (safe_all n hn c hc)).2.2.2.2.1
  have h1 : ∀ c ∈ fixedSeg1, c ≠ btick := all_bne_spec btick fixedSeg1 (by decide)
  have h2 : ∀ c ∈ fixedSeg2, c ≠ btick := all_bne_spec btick fixedSeg2 (by decide)
  simp only [qtextA]
  rw [searchO_cons_none _ _ _ (fenceAt_cons_ne _ _ (by decide)),
      searchO_append_none _ _ _ (fun c t hc => fenceAt_cons_ne c t (h1 c hc)),
      searchO_append_none _ _ _ (fun c t hc => fenceAt_cons_ne c t (hnb c hc)),
      searchO_append_none _ _ _ (fun c t hc => fenceAt_cons_ne c t (h2 c hc))]
  decide

theorem fence_search_B (n v : Chars) (hn : n.all safeChar = true)
    (hv : v.all safeChar = true) :
    searchO fenceAt (qtextB n v) = none := by
  have hnb : ∀ c ∈ n, c ≠ btick :=
    fun c hc => (safeChar_spec c (safe_all n hn c hc)).2.2.2.2.1
  have hvb : ∀ c ∈ v, c ≠ btick :=
    fun c hc => (safeChar_spec c (safe_all v hv c hc)).2.2.2.2.1
  have h1 : ∀ c ∈ fixedSeg1, c ≠ btick := all_bne_spec btick fixedSeg1 (by decide)
  have h2 : ∀ c ∈ fixedSeg2, c ≠ btick := all_bne_spec btick fixedSeg2 (by decide)
  have h3 : ∀ c ∈ fixedSeg3, c ≠ btick := all_bne_spec btick fixedSeg3 (by decide)
  simp only [qtextB]
  rw [searchO_cons_none _ _ _ (fenceAt_cons_ne _ _ (by decide)),
      searchO_append_none _ _ _ (fun c t hc => fenceAt_cons_ne c t (h1 c hc)),
      searchO_append_none _ _ _ (fun c t hc => fenceAt_cons_ne c t (hnb c hc)),
      searchO_append_none _ _ _ (fun c t hc => fenceAt_cons_ne c t (h2 c hc)),
      searchO_cons_none _ _ _ (fenceAt_cons_ne _ _ (by decide)),
      searchO_append_none _ _ _ (fun c t hc => fenceAt_cons_ne c t (h3 c hc)),
      searchO_append_none _ _ _ (fun c t hc => fenceAt_cons_ne c t (hvb c hc))]
  decide

/-- The flexible scan matches at position 0 of the rendered empty-args
invocation and cuts the brace-unbalanced candidate `candA`. -/
theorem flex_search_A (n : Chars) (hn : n.all safeChar = true) :
    searchO flexAt (qtextA n) = some (candA n) := by
  have hnr : ∀ c ∈ n, c ≠ rbrace :=
    fun c hc => (safeChar_spec c (safe_all n hn c hc)).2.2.1
  have h1 : ∀ c ∈ fixedSeg1, c ≠ rbrace := all_bne_spec rbrace fixedSeg1 (by decide)
  have h2 : ∀ c ∈ fixedSeg2, c ≠ rbrace := all_bne_spec rbrace fixedSeg2 (by decide)
  have hsp : splitAtFirst rbrace (fixedSeg1 ++ (n ++ (fixedSeg2 ++
      [lbrace, rbrace, rbrace]))) =
      some (fixedSeg1 ++ (n ++ (fixedSeg2 ++ [lbrace])), [rbrace]) := by
    rw [splitAtFirst_append_free _ _ _ h1, splitAtFirst_append_free _ _ _ hnr,
        splitAtFirst_append_free _ _ _ h2]
    simp [splitAtFirst, lbrace, rbrace]
  have hpos : flexAt (lbrace :: (fixedSeg1 ++ (n ++ (fixedSeg2 ++
      [lbrace, rbrace, rbrace])))) = some (candA n) := by
    rw [flexAt_lbrace, hsp]
    simp [hasSub_qtn_seg1, candA]
  simp only [qtextA]
  rw [searchO_cons_some _ _ _ _ hpos]

/-- The flexible scan matches at position 0 of the rendered query-args
invocation and cuts the brace-unbalanced candidate `candB`. -/
theorem flex_search_B (n v : Chars) (hn : n.all safeChar = true)
    (hv : v.all safeChar = true) :
    searchO flexAt (qtextB n v) = some (candB n v) := by
  have hnr : ∀ c ∈ n, c ≠ rbrace :=
    fun c hc => (safeChar_spec c (safe_all n hn c hc)).2.2.1
  have hvr : ∀ c ∈ v, c ≠ rbrace :=
    fun c hc => (safeChar_spec c (safe_all v hv c hc)).2.2.1
  have h1 : ∀ c ∈ fixedSeg1, c ≠ rbrace := all_bne_spec rbrace fixedSeg1 (by decide)
  have h2 : ∀ c ∈ fixedSeg2, c ≠ rbrace := all_bne_spec rbrace fixedSeg2 (by decide)
  have h3 : ∀ c ∈ fixedSeg3, c ≠ rbrace := all_bne_spec rbrace fixedSeg3 (by decide)
  have hlb : ∀ c ∈ [lbrace], c ≠ rbrace := all_bne_spec rbrace [lbrace] (by decide)
  have hsp : splitAtFirst rbrace (fixedSeg1 ++ (n ++ (fixedSeg2 ++
      (lbrace :: (fixedSeg3 ++ (v ++ ['"', rbrace, rbrace])))))) =
      some (fixedSeg1 ++ (n ++ (fixedSeg2 ++ (lbrace :: (fixedSeg3 ++ (v ++ ['"']))))),
        [rbrace]) := by
    rw [show (lbrace :: (fixedSeg3 ++ (v ++ (['"', rbrace, rbrace] : Chars))) : Chars) =
        [lbrace] ++ (fixedSeg3 ++ (v ++ ['"', rbrace, rbrace])) from rfl]
    rw [splitAtFirst_append_free _ _ _ h1, splitAtFirst_append_free _ _ _ hnr,
        splitAtFirst_append_free _ _ _ h2, splitAtFirst_append_free _ _ _ hlb,
        splitAtFirst_append_free _ _ _ h3, splitAtFirst_append_free _ _ _ hvr]
    simp [splitAtFirst, rbrace, dquote]
  have hpos : flexAt (lbrace :: (fixedSeg1 ++ (n ++ (fixedSeg2 ++
      (lbrace :: (fixedSeg3 ++ (v ++ ['"', rbrace, rbrace]))))))) = some (candB n v) := by
    rw [flexAt_lbrace, hsp]
    simp [hasSub_qtn_seg1, candB]
  simp only [qtextB]
  rw [searchO_cons_some _ _ _ _ hpos]

/-! ### The candidate survives strip and trailing-comma repair unchanged -/

theorem pyStrip_brace_wrapped (mid : Chars) :
    pyStrip ((lbrace :: mid) ++ [rbrace]) = (lbrace :: mid) ++ [rbrace] := by
  unfold pyStrip
  have h1 : ((lbrace :: mid) ++ [rbrace]).dropWhile isPySpace = (lbrace :: mid) ++ [rbrace] := by
    simp [List.dropWhile, isPySpace, lbrace]
  rw [h1]
  rw [show (((lbrace :: mid) ++ [rbrace]).reverse : Chars) =
      rbrace :: (lbrace :: mid).reverse from by simp]
  rw [show ((rbrace :: (lbrace :: mid).reverse).dropWhile isPySpace : Chars) =
      rbrace :: (lbrace :: mid).reverse from by simp [List.dropWhile, isPySpace, rbrace]]
  simp

theorem subGo_append_nocomma (close : Char) (xs ys : Chars) (hx : ∀ c ∈ xs, c ≠ ',') :
    subGo close (xs ++ ys) none = xs ++ subGo close ys none := by
  induction xs with
  | nil => rfl
  | cons c cs ih =>
    rw [List.cons_append]
    simp only [subGo]
    rw [if_neg (hx c (by simp))]
    rw [ih (fun x hxm => hx x (by simp [hxm])), List.cons_append]

theorem subGo_nocomma_id (close : Char) (l : Chars) (h : ∀ c ∈ l, c ≠ ',') :
    subGo close l none = l := by
  have h0 := subGo_append_nocomma close l [] h
  rw [List.append_nil] at h0
  rw [h0]
  rw [show (subGo close [] none : Chars) = [] from rfl, List.append_nil]

/-- Stepping over the rendered `", "` separator: the pending comma is
flushed unchanged because the next non-whitespace character is a quote, not
the closing character. -/
theorem subGo_comma_sp_dq (close : Char) (R : Chars) (h1 : ' ' ≠ close) (h2 : '"' ≠ close) :
    subGo close (',' :: ' ' :: '"' :: R) none = ',' :: ' ' :: '"' :: subGo close R none := by
  simp [subGo, isPySpace, h1, h2]

/-- One repair pass leaves the unbalanced query-args candidate unchanged:
its single comma is followed by a quote. -/
theorem subGo_candB (close : Char) (n v : Chars)
    (hn : n.all safeChar = true) (hv : v.all safeChar = true)
    (h1 : ' ' ≠ close) (h2 : '"' ≠ close) :
    subGo close (candB n v) none = candB n v := by
  have hnc : ∀ c ∈ n, c ≠ ',' :=
    fun c hc => (safeChar_spec c (safe_all n hn c hc)).2.2.2.2.2.2.1
  have hvc : ∀ c ∈ v, c ≠ ',' :=
    fun c hc => (safeChar_spec c (safe_all v hv c hc)).2.2.2.2.2.2.1
  have hshape : candB n v =
      (lbrace :: fixedSeg1) ++ (n ++ (['"'] ++ (',' :: ' ' :: '"' :: (('a' :: 'r' :: 'g' :: 's' :: '"' :: ':' :: ' ' :: lbrace :: fixedSeg3) ++
          (v ++ ['"', rbrace]))))) := by
    simp [candB, fixedSeg1, fixedSeg2, fixedSeg3]
  rw [hshape]
  rw [subGo_append_nocomma close _ _ (all_bne_spec ',' (lbrace :: fixedSeg1) (by decide)),
      subGo_append_nocomma close _ _ hnc,
      subGo_append_nocomma close _ _ (all_bne_spec ',' ['"'] (by decide)),
      subGo_comma_sp_dq close _ h1 h2,
      subGo_append_nocomma close _ _
        (all_bne_spec ',' ('a' :: 'r' :: 'g' :: 's' :: '"' :: ':' :: ' ' :: lbrace :: fixedSeg3)
          (by decide)),
      subGo_append_nocomma close _ _ hvc,
      subGo_nocomma_id close ['"', rbrace] (all_bne_spec ',' ['"', rbrace] (by decide))]

/-- One repair pass leaves the unbalanced empty-args candidate unchanged. -/
theorem subGo_candA (close : Char) (n : Chars) (hn : n.all safeChar = true)
    (h1 : ' ' ≠ close) (h2 : '"' ≠ close) :
    subGo close (candA n) none = candA n := by
  have hnc : ∀ c ∈ n, c ≠ ',' :=
    fun c hc => (safeChar_spec c (safe_all n hn c hc)).2.2.2.2.2.2.1
  have hshape : candA n =
      (lbrace :: fixedSeg1) ++ (n ++ (['"'] ++ (',' :: ' ' :: '"' :: ('a' :: 'r' :: 'g' :: 's' :: '"' :: ':' :: ' ' :: lbrace :: [rbrace])))) := by
    simp [candA, fixedSeg1, fixedSeg2]
  rw [hshape]
  rw [subGo_append_nocomma close _ _ (all_bne_spec ',' (lbrace :: fixedSeg1) (by decide)),
      subGo_append_nocomma close _ _ hnc,
      subGo_append_nocomma close _ _ (all_bne_spec ',' ['"'] (by decide)),
      subGo_comma_sp_dq close _ h1 h2,
      subGo_nocomma_id close _
        (all_bne_spec ',' ('a' :: 'r' :: 'g' :: 's' :: '"' :: ':' :: ' ' :: lbrace :: [rbrace])
          (by decide))]

theorem stripCommas_candA (n : Chars) (hn : n.all safeChar = true) :
    stripTrailingCommas (candA n) = candA n := by
  unfold stripTrailingCommas
  rw [subGo_candA rbrace n hn (by decide) (by decide),
      subGo_candA ']' n hn (by decide) (by decide)]

theorem stripCommas_candB (n v : Chars) (hn : n.all safeChar = true)
    (hv : v.all safeChar = true) :
    stripTrailingCommas (candB n v) = candB n v := by
  unfold stripTrailingCommas
  rw [subGo_candB rbrace n v hn hv (by decide) (by decide),
      subGo_candB ']' n v hn hv (by decide) (by decide)]

/-! ### Both candidates fail to parse as JSON (unbalanced outer brace) -/

theorem parseStr_safe (v rest : Chars) (hv : ∀ c ∈ v, safeChar c = true) :
    parseStr (v ++ ('"' :: rest)) = some (v, rest) := by
  induction v with
  | nil => rfl
  | cons c cs ih =>
    obtain ⟨h32, -, -, hdq, -, hbs, -⟩ := safeChar_spec c (hv c (by simp))
    show parseStrGo false (c :: (cs ++ '"' :: rest)) = some (c :: cs, rest)
    simp only [parseStrGo]
    rw [if_neg hdq, if_neg hbs, if_neg (by omega : ¬(c.toNat < 32))]
    rw [show parseStrGo false (cs ++ '"' :: rest) = some (cs, rest) from
      ih (fun x hx => hv x (by simp [hx]))]

theorem parseVal_candB_none (n v : Chars) (hn : n.all safeChar = true)
    (hv : v.all safeChar = true) (k : Nat) :
    parseVal (k + 6) (candB n v) = none := by
  have hpn : ∀ rest : Chars, parseStrGo false (n ++ ('"' :: rest)) = some (n, rest) :=
    fun rest => parseStr_safe n rest (safe_all n hn)
  have hpv : ∀ rest : Chars, parseStrGo false (v ++ ('"' :: rest)) = some (v, rest) :=
    fun rest => parseStr_safe v rest (safe_all v hv)
  simp [candB, fixedSeg1, fixedSeg2, fixedSeg3, parseVal, parseMembers, parseStr, parseStrGo,
    unescape, skipWs, isPySpace, dquote, lbrace, rbrace, hpn, hpv]

theorem parseVal_candA_none (n : Chars) (hn : n.all safeChar = true) (k : Nat) :
    parseVal (k + 6) (candA n) = none := by
  have hpn : ∀ rest : Chars, parseStrGo false (n ++ ('"' :: rest)) = some (n, rest) :=
    fun rest => parseStr_safe n rest (safe_all n hn)
  simp [candA, fixedSeg1, fixedSeg2, parseVal, parseMembers, parseStr, parseStrGo,
    unescape, skipWs, isPySpace, dquote, lbrace, rbrace, hpn]

theorem pyJsonLoads_candA (n : Chars) (hn : n.all safeChar = true) :
    pyJsonLoads (candA n) = none := by
  have hlen : 5 ≤ (candA n).length := by
    simp [candA, fixedSeg1, fixedSeg2]
  have heq : (candA n).length + 1 = ((candA n).length - 5) + 6 := by omega
  unfold pyJsonLoads
  rw [heq, parseVal_candA_none n hn]

theorem pyJsonLoads_candB (n v : Chars) (hn : n.all safeChar = true)
    (hv : v.all safeChar = true) :
    pyJsonLoads (candB n v) = none := by
  have hlen : 5 ≤ (candB n v).length := by
    simp [candB, fixedSeg1, fixedSeg2, fixedSeg3]
  have heq : (candB n v).length + 1 = ((candB n v).length - 5) + 6 := by omega
  unfold pyJsonLoads
  rw [heq, parseVal_candB_none n v hn hv]

/-! ### The regex fallback recovers the name and the query argument -/

theorem scrapeAt_tool_pos (n X : Chars) (hnd : ∀ c ∈ n, c ≠ dquote) (hn0 : n ≠ []) :
    scrapeAt toolNameKey ('"' :: 't' :: 'o' :: 'o' :: 'l' :: '_' :: 'n' :: 'a' :: 'm' :: 'e' :: '"' :: ':' :: ' ' :: '"' :: (n ++ ('"' :: X))) = some n := by
  have hnd2 : ∀ c ∈ n, c ≠ '"' := hnd
  have hsp : splitAtFirst '"' (n ++ ('"' :: X)) = some (n, X) := by
    rw [splitAtFirst_append_free _ _ _ hnd2]
    simp [splitAtFirst]
  simp [scrapeAt, startsWith, toolNameKey, dquote, isPySpace, List.dropWhile, hsp, hn0]

theorem scrapeAt_query_pos (v Y : Chars) (hvd : ∀ c ∈ v, c ≠ dquote) (hv0 : v ≠ []) :
    scrapeAt queryKey ('"' :: 'q' :: 'u' :: 'e' :: 'r' :: 'y' :: '"' :: ':' :: ' ' :: '"' :: (v ++ ('"' :: Y))) = some v := by
  have hvd2 : ∀ c ∈ v, c ≠ '"' := hvd
  have hsp : splitAtFirst '"' (v ++ ('"' :: Y)) = some (v, Y) := by
    rw [splitAtFirst_append_free _ _ _ hvd2]
    simp [splitAtFirst]
  simp [scrapeAt, startsWith, queryKey, dquote, isPySpace, List.dropWhile, hsp, hv0]

/-- At the quote opening the rendered name, the query pattern fails: either
the name differs from `query`, or the character after its closing quote is a
comma where the pattern requires a colon. -/
theorem scrapeAt_query_nameopen (n R : Chars) (hnd : ∀ c ∈ n, c ≠ dquote) :
    scrapeAt queryKey ('"' :: (n ++ ('"' :: ',' :: ' ' :: R))) = none := by
  by_cases hq : n = queryKey
  · subst hq
    simp [scrapeAt, startsWith, queryKey, dquote, isPySpace, List.dropWhile]
  · have hsw : startsWith (dquote :: queryKey ++ [dquote])
        ('"' :: (n ++ ('"' :: ',' :: ' ' :: R))) = false := by
      have hqk : ∀ c ∈ queryKey, c ≠ dquote := all_bne_spec dquote queryKey (by decide)
      have hiff := startsWith_qend queryKey n (',' :: ' ' :: R) hqk hnd
      rw [show startsWith (dquote :: queryKey ++ [dquote])
            ('"' :: (n ++ ('"' :: ',' :: ' ' :: R))) =
          startsWith (queryKey ++ [dquote]) (n ++ ('"' :: ',' :: ' ' :: R)) from by
        simp [startsWith, dquote]]
      rw [Bool.eq_false_iff]
      intro h2
      exact hq (hiff.mp h2).symm
    simp only [scrapeAt, hsw, Bool.false_eq_true, if_false]

theorem qtextA_exploded (n : Chars) :
    qtextA n = lbrace :: '"' :: 't' :: 'o' :: 'o' :: 'l' :: '_' :: 'n' :: 'a' :: 'm' :: 'e' :: '"' :: ':' :: ' ' :: '"' :: (n ++ ('"' :: ',' :: ' ' :: '"' :: 'a' :: 'r' :: 'g' :: 's' :: '"' :: ':' :: ' ' :: lbrace :: rbrace :: [rbrace])) := by
  simp [qtextA, fixedSeg1, fixedSeg2]

theorem qtextB_exploded (n v : Chars) :
    qtextB n v = lbrace :: '"' :: 't' :: 'o' :: 'o' :: 'l' :: '_' :: 'n' :: 'a' :: 'm' :: 'e' :: '"' :: ':' :: ' ' :: '"' :: (n ++ ('"' :: ',' :: ' ' :: '"' :: 'a' :: 'r' :: 'g' :: 's' :: '"' :: ':' :: ' ' :: (lbrace :: ('"' :: 'q' :: 'u' :: 'e' :: 'r' :: 'y' :: '"' :: ':' :: ' ' :: '"' :: (v ++ ['"', rbrace, rbrace]))))) := by
  simp [qtextB, fixedSeg1, fixedSeg2, fixedSeg3]

theorem scrape_tool_A (n : Chars) (hn : n.all safeChar = true) (hn0 : n ≠ []) :
    searchO (scrapeAt toolNameKey) (qtextA n) = some n := by
  have hnd : ∀ c ∈ n, c ≠ dquote :=
    fun c hc => (safeChar_spec c (safe_all n hn c hc)).2.2.2.1
  rw [qtextA_exploded]
  rw [searchO_cons_none _ _ _ (scrapeAt_cons_ne _ _ _ (by decide))]
  exact searchO_cons_some _ _ _ _ (scrapeAt_tool_pos n _ hnd hn0)

theorem scrape_tool_B (n v : Chars) (hn : n.all safeChar = true) (hn0 : n ≠ []) :
    searchO (scrapeAt toolNameKey) (qtextB n v) = some n := by
  have hnd : ∀ c ∈ n, c ≠ dquote :=
    fun c hc => (safeChar_spec c (safe_all n hn c hc)).2.2.2.1
  rw [qtextB_exploded]
  rw [searchO_cons_none _ _ _ (scrapeAt_cons_ne _ _ _ (by decide))]
  exact searchO_cons_some _ _ _ _ (scrapeAt_tool_pos n _ hnd hn0)

theorem scrape_query_A (n : Chars) (hn : n.all safeChar = true) :
    searchO (scrapeAt queryKey) (qtextA n) = none := by
  have hnd : ∀ c ∈ n, c ≠ dquote :=
    fun c hc => (safeChar_spec c (safe_all n hn c hc)).2.2.2.1
  rw [qtextA_exploded]
  rw [searchO_cons_none _ _ _ (scrapeAt_cons_ne _ _ _ (by decide)),
      searchO_cons_none _ _ _ (by simp [scrapeAt, startsWith, queryKey, dquote]),
      searchO_cons_none _ _ _ (scrapeAt_cons_ne _ _ _ (by decide)),
      searchO_cons_none _ _ _ (scrapeAt_cons_ne _ _ _ (by decide)),
      searchO_cons_none _ _ _ (scrapeAt_cons_ne _ _ _ (by decide)),
      searchO_cons_none _ _ _ (scrapeAt_cons_ne _ _ _ (by decide)),
      searchO_cons_none _ _ _ (scrapeAt_cons_ne _ _ _ (by decide)),
      searchO_cons_none _ _ _ (scrapeAt_cons_ne _ _ _ (by decide)),
      searchO_cons_none _ _ _ (scrapeAt_cons_ne _ _ _ (by decide)),
      searchO_cons_none _ _ _ (scrapeAt_cons_ne _ _ _ (by decide)),
      searchO_cons_none _ _ _ (scrapeAt_cons_ne _ _ _ (by decide)),
      searchO_cons_none _ _ _ (by simp [scrapeAt, startsWith, queryKey, dquote]),
      searchO_cons_none _ _ _ (scrapeAt_cons_ne _ _ _ (by decide)),
      searchO_cons_none _ _ _ (scrapeAt_cons_ne _ _ _ (by decide)),
      searchO_cons_none _ _ _ (scrapeAt_query_nameopen n _ hnd),
      searchO_append_none _ _ _ (fun c t hc => scrapeAt_cons_ne _ c t (hnd c hc)),
      searchO_cons_none _ _ _ (by simp [scrapeAt, startsWith, queryKey, dquote]),
      searchO_cons_none _ _ _ (scrapeAt_cons_ne _ _ _ (by decide)),
      searchO_cons_none _ _ _ (scrapeAt_cons_ne _ _ _ (by decide)),
      searchO_cons_none _ _ _ (by simp [scrapeAt, startsWith, queryKey, dquote]),
      searchO_cons_none _ _ _ (scrapeAt_cons_ne _ _ _ (by decide)),
      searchO_cons_none _ _ _ (scrapeAt_cons_ne _ _ _ (by decide)),
      searchO_cons_none _ _ _ (scrapeAt_cons_ne _ _ _ (by decide)),
      searchO_cons_none _ _ _ (scrapeAt_cons_ne _ _ _ (by decide)),
      searchO_cons_none _ _ _ (by simp [scrapeAt, startsWith, queryKey, dquote]),
      searchO_cons_none _ _ _ (scrapeAt_cons_ne _ _ _ (by decide)),
      searchO_cons_none _ _ _ (scrapeAt_cons_ne _ _ _ (by decide))]
  decide

theorem scrape_query_B (n v : Chars) (hn : n.all safeChar = true)
    (hv : v.all safeChar = true) (hv0 : v ≠ []) :
    searchO (scrapeAt queryKey) (qtextB n v) = some v := by
  have hnd : ∀ c ∈ n, c ≠ dquote :=
    fun c hc => (safeChar_spec c (safe_all n hn c hc)).2.2.2.1
  have hvd : ∀ c ∈ v, c ≠ dquote :=
    fun c hc => (safeChar_spec c (safe_all v hv c hc)).2.2.2.1
  rw [qtextB_exploded]
  rw [searchO_cons_none _ _ _ (scrapeAt_cons_ne _ _ _ (by decide)),
      searchO_cons_none _ _ _ (by simp [scrapeAt, startsWith, queryKey, dquote]),
      searchO_cons_none _ _ _ (scrapeAt_cons_ne _ _ _ (by decide)),
      searchO_cons_none _ _ _ (scrapeAt_cons_ne _ _ _ (by decide)),
      searchO_cons_none _ _ _ (scrapeAt_cons_ne _ _ _ (by decide)),
      searchO_cons_none _ _ _ (scrapeAt_cons_ne _ _ _ (by decide)),
      searchO_cons_none _ _ _ (scrapeAt_cons_ne _ _ _ (by decide)),
      searchO_cons_none _ _ _ (scrapeAt_cons_ne _ _ _ (by decide)),
      searchO_cons_none _ _ _ (scrapeAt_cons_ne _ _ _ (by decide)),
      searchO_cons_none _ _ _ (scrapeAt_cons_ne _ _ _ (by decide)),
      searchO_cons_none _ _ _ (scrapeAt_cons_ne _ _ _ (by decide)),
      searchO_cons_none _ _ _ (by simp [scrapeAt, startsWith, queryKey, dquote]),
      searchO_cons_none _ _ _ (scrapeAt_cons_ne _ _ _ (by decide)),
      searchO_cons_none _ _ _ (scrapeAt_cons_ne _ _ _ (by decide)),
      searchO_cons_none _ _ _ (scrapeAt_query_nameopen n _ hnd),
      searchO_append_none _ _ _ (fun c t hc => scrapeAt_cons_ne _ c t (hnd c hc)),
      searchO_cons_none _ _ _ (by simp [scrapeAt, startsWith, queryKey, dquote]),
      searchO_cons_none _ _ _ (scrapeAt_cons_ne _ _ _ (by decide)),
      searchO_cons_none _ _ _ (scrapeAt_cons_ne _ _ _ (by decide)),
      searchO_cons_none _ _ _ (by simp [scrapeAt, startsWith, queryKey, dquote]),
      searchO_cons_none _ _ _ (scrapeAt_cons_ne _ _ _ (by decide)),
      searchO_cons_none _ _ _ (scrapeAt_cons_ne _ _ _ (by decide)),
      searchO_cons_none _ _ _ (scrapeAt_cons_ne _ _ _ (by decide)),
      searchO_cons_none _ _ _ (scrapeAt_cons_ne _ _ _ (by decide)),
      searchO_cons_none _ _ _ (by simp [scrapeAt, startsWith, queryKey, dquote]),
      searchO_cons_none _ _ _ (scrapeAt_cons_ne _ _ _ (by decide)),
      searchO_cons_none _ _ _ (scrapeAt_cons_ne _ _ _ (by decide)),
      searchO_cons_none _ _ _ (scrapeAt_cons_ne _ _ _ (by decide))]
  exact searchO_cons_some _ _ _ _ (scrapeAt_query_pos v _ hvd hv0)

/-! ### Assembly: the extractor on the two rendered wire shapes -/

theorem handle_json_fields_qtextA (n : Chars) (hn : n.all safeChar = true) (hn0 : n ≠ []) :
    handle_json_fields (qtextA n) = .ok (some (.str n), Json.obj .nil) := by
  have hcand : jsonCandidate (qtextA n) = some (candA n) := by
    simp only [jsonCandidate, strict_search_A n hn, fence_search_A n hn, flex_search_A n hn]
    rw [show (candA n : Chars) = (lbrace :: (fixedSeg1 ++ (n ++ (fixedSeg2 ++ [lbrace])))) ++
        [rbrace] from rfl]
    rw [pyStrip_brace_wrapped]
  unfold handle_json_fields
  rw [hcand]
  simp only [stripCommas_candA n hn, pyJsonLoads_candA n hn]
  unfold fallbackScrape
  rw [scrape_tool_A n hn hn0, scrape_query_A n hn]

theorem handle_json_fields_qtextB (n v : Chars)
    (hn : n.all safeChar = true) (hn0 : n ≠ [])
    (hv : v.all safeChar = true) (hv0 : v ≠ []) (hvq : v ≠ toolNameKey) :
    handle_json_fields (qtextB n v) =
      .ok (some (.str n), Json.obj (.cons queryKey (.str v) .nil)) := by
  have hcand : jsonCandidate (qtextB n v) = some (candB n v) := by
    simp only [jsonCandidate, strict_search_B n v hn hv hvq, fence_search_B n v hn hv,
      flex_search_B n v hn hv]
    rw [show (candB n v : Chars) = (lbrace :: (fixedSeg1 ++ (n ++ (fixedSeg2 ++
        (lbrace :: (fixedSeg3 ++ (v ++ ['"']))))))) ++ [rbrace] from rfl]
    rw [pyStrip_brace_wrapped]
  unfold handle_json_fields
  rw [hcand]
  simp only [stripCommas_candB n v hn hv, pyJsonLoads_candB n v hn hv]
  unfold fallbackScrape
  rw [scrape_tool_B n v hn hn0, scrape_query_B n v hn hv hv0]

/-! ## C1 — round-trip extraction (amended theorem) -/

/-- C1 amended: the wire-shape round-trip holds exactly for the invocations
the recovery path can reconstruct — those whose flat arguments mapping is
empty or consists of the single string argument `query` (with name and value
built from safe printable characters, non-empty, and the value not itself
the literal `tool_name`).  The rendered `args` object nests inside the outer
braces, so the strict scan fails, the flexible scan cuts a brace-unbalanced
candidate that cannot parse, and the regex fallback reconstructs exactly the
tool name and an optional `query` argument — any other flat argument is
dropped (see the counterexample). -/
theorem c1_roundtrip_query_or_empty (n v : Chars)
    (hn : n.all safeChar = true) (hn0 : n ≠ [])
    (hv : v.all safeChar = true) (hv0 : v ≠ []) (hvq : v ≠ toolNameKey) :
    handle_json_fields (renderInvocation n []) = .ok (some (.str n), Json.obj .nil) ∧
    handle_json_fields (renderInvocation n [(queryKey, v)]) =
      .ok (some (.str n), Json.obj (.cons queryKey (.str v) .nil)) := by
  rw [renderInvocation_empty_eq, renderInvocation_query_eq]
  exact ⟨handle_json_fields_qtextA n hn hn0,
    handle_json_fields_qtextB n v hn hn0 hv hv0 hvq⟩

/-- C1 amended witness: the round-trip at `google_search` / `AI news`. -/
theorem c1_roundtrip_witness :
    handle_json_fields (renderInvocation (("google_search").toList) []) =
      .ok (some (.str (("google_search").toList)), Json.obj .nil) ∧
    handle_json_fields
        (renderInvocation (("google_search").toList) [(queryKey, ("AI news").toList)]) =
      .ok (some (.str (("google_search").toList)),
           Json.obj (.cons queryKey (.str (("AI news").toList)) .nil)) :=
  c1_roundtrip_query_or_empty (("google_search").toList) (("AI news").toList)
    (by decide) (by decide) (by decide) (by decide) (by decide)

end OllamaAgent
